import Mathlib

/-!
# Verification of the NPB federated player-data access layer

This file gives a shallow embedding, in Lean 4, of the core data-access layer
of the baseball-mcp repository (the NPB subsystem: name normalization, the
composite provider's season routing and career merge, the aggregator's search
and stats fallback, career-total recomputation, the scrapers' batting-row
extraction, and the smart-selection disambiguation workflow), together with
theorems settling the spec's claims about that code.

Modelling conventions:
* Python strings are modelled as lists of character code points (`List Nat`);
  the repository's data is ASCII, and Python's `str.lower`, `str.strip`,
  `re.sub` and `str.replace` are embedded on codes.
* Python `float` values are modelled as exact rationals (`ℚ`); `round(x, n)`
  is modelled as exact round-half-to-even at `n` decimal digits.
* Python dicts produced by providers are modelled as structures whose
  `Option` fields distinguish a missing key from a present value.
* Python exceptions are modelled with `Except Unit`; a `try/except` block
  pattern-matches on the result.
* `async`/`await` calls are sequential in the code under study (results are
  joined in order), so they are embedded as ordinary function calls; the
  provider back-ends (network, database) are oracle parameters.
-/

namespace NameUtils

/-- Code point of the lowercase image of an ASCII character, as computed by
Python `str.lower` (restricted to the ASCII range relevant here). -/
def pyToLower (c : Nat) : Nat :=
  if 65 ≤ c ∧ c ≤ 90 then c + 32 else c

/-- Python `\s` (ASCII whitespace: space, tab, LF, VT, FF, CR). -/
def isWS (c : Nat) : Bool :=
  c == 32 || c == 9 || c == 10 || c == 11 || c == 12 || c == 13

/-- Python `\w` on ASCII: digits, letters, underscore. -/
def isWordChar (c : Nat) : Bool :=
  (48 ≤ c && c ≤ 57) || (65 ≤ c && c ≤ 90) || (97 ≤ c && c ≤ 122) || c == 95

/-- Characters kept by `re.sub(r'[^\w\s-]', '', s)`. -/
def keepChar (c : Nat) : Bool :=
  isWordChar c || isWS c || c == 45

/-- Python `str.strip()`: drop leading and trailing whitespace. -/
def stripWS (l : List Nat) : List Nat :=
  ((l.dropWhile isWS).reverse.dropWhile isWS).reverse

/-- Worker for `collapseWS`; the flag records whether the previous character
was whitespace (so a run of whitespace emits a single space). -/
def collapseWSAux : Bool → List Nat → List Nat
  | _, [] => []
  | prev, c :: cs =>
    if isWS c then
      if prev then collapseWSAux true cs else 32 :: collapseWSAux true cs
    else
      c :: collapseWSAux false cs

/-- Python `re.sub(r'\s+', ' ', s)`: each maximal whitespace run becomes one
space. -/
def collapseWS (l : List Nat) : List Nat :=
  collapseWSAux false l

/-- Fuel-indexed worker for `replaceList` (structural recursion so that the
kernel can evaluate it); with fuel at least the length of the list it
implements Python `str.replace`: leftmost, non-overlapping, all
occurrences. -/
def replaceFuel (pat rep : List Nat) : Nat → List Nat → List Nat
  | _, [] => []
  | 0, l => l
  | fuel + 1, c :: cs =>
    if pat ≠ [] ∧ pat.isPrefixOf (c :: cs) then
      rep ++ replaceFuel pat rep fuel (List.drop pat.length (c :: cs))
    else
      c :: replaceFuel pat rep fuel cs

/-- Python `s.replace(pat, rep)` for a non-empty pattern. -/
def replaceList (pat rep l : List Nat) : List Nat :=
  replaceFuel pat rep l.length l

/-- Code points of a string literal. -/
def strCodes (s : String) : List Nat :=
  s.toList.map Char.toNat

/-- Python `pat in s` (substring containment) on code lists. -/
def containsSeq (pat : List Nat) : List Nat → Bool
  | [] => pat.isEmpty
  | c :: cs => pat.isPrefixOf (c :: cs) || containsSeq pat cs

/-- The `ROMANIZATION_VARIANTS` table of `name_utils.py`, in dict insertion
order, paired with the first (used) replacement of each entry. -/
def romanTable : List (List Nat × List Nat) :=
  [ (strCodes "ou", strCodes "o"), (strCodes "oo", strCodes "o"),
    (strCodes "oh", strCodes "o"), (strCodes "uu", strCodes "u"),
    (strCodes "ei", strCodes "e"), (strCodes "ii", strCodes "i"),
    (strCodes "shi", strCodes "si"), (strCodes "chi", strCodes "ti"),
    (strCodes "tsu", strCodes "tu"), (strCodes "fu", strCodes "hu"),
    (strCodes "ji", strCodes "zi"), (strCodes "zu", strCodes "du"),
    (strCodes "sha", strCodes "sya"), (strCodes "shu", strCodes "syu"),
    (strCodes "sho", strCodes "syo"), (strCodes "cha", strCodes "tya"),
    (strCodes "chu", strCodes "tyu"), (strCodes "cho", strCodes "tyo"),
    (strCodes "ja", strCodes "zya"), (strCodes "ju", strCodes "zyu"),
    (strCodes "jo", strCodes "zyo") ]

/-- The romanization loop of `normalize_name`: for each table entry, if the
variant occurs in the string, replace it by its first replacement. -/
def applyVariants (l : List Nat) : List Nat :=
  romanTable.foldl
    (fun acc pr => if containsSeq pr.1 acc then replaceList pr.1 pr.2 acc else acc) l

/-- Embedding of `name_utils.normalize_name`: lowercase, strip, remove
`[^\w\s-]`, collapse whitespace, then apply the romanization table. -/
def normalize_name (s : List Nat) : List Nat :=
  applyVariants (collapseWS (List.filter keepChar (stripWS (s.map pyToLower))))

/-- ASCII uppercase letter test. -/
def isUpperCode (c : Nat) : Bool :=
  65 ≤ c && c ≤ 90

/-- No romanization-variant key occurs in the string. -/
def noVariantKey (l : List Nat) : Bool :=
  romanTable.all (fun pr => !(containsSeq pr.1 l))

/-- The string neither starts nor ends with whitespace. -/
def noEdgeWS (l : List Nat) : Bool :=
  (match l.head? with
    | none => true
    | some c => !isWS c)
  && (match l.getLast? with
    | none => true
    | some c => !isWS c)

/-- No two adjacent whitespace characters. -/
def noAdjWS : List Nat → Bool
  | [] => true
  | [_] => true
  | a :: b :: t => (!(isWS a && isWS b)) && noAdjWS (b :: t)

/-- A replacement-table character: not whitespace, not uppercase, kept by
the punctuation filter. -/
def goodRepChar (c : Nat) : Bool :=
  !isWS c && !isUpperCode c && keepChar c

/-- Invariant of strings produced by the normalization pipeline: all
characters lowercase-safe, kept by the filter, every whitespace character a
plain space, and no two adjacent whitespace characters. -/
def GoodState (l : List Nat) : Prop :=
  (∀ c ∈ l, isUpperCode c = false ∧ keepChar c = true ∧ (isWS c = true → c = 32)) ∧
    noAdjWS l = true

end NameUtils

namespace PyNum

/-- Python `int(float(v))`: truncation toward zero. -/
def pyTrunc (q : ℚ) : ℤ :=
  if 0 ≤ q then ⌊q⌋ else ⌈q⌉

/-- Rounding of `x` to the nearest integer, ties to even — the behaviour of
Python `round` on an exactly-represented value. -/
def roundHalfEven (x : ℚ) : ℤ :=
  let f : ℤ := ⌊x⌋
  let r : ℚ := x - f
  if r < 1 / 2 then f
  else if 1 / 2 < r then f + 1
  else if f % 2 = 0 then f else f + 1

/-- Python `round(x, n)` modelled exactly on rationals. -/
def pyRound (x : ℚ) (n : ℕ) : ℚ :=
  (roundHalfEven (x * 10 ^ n) : ℚ) / 10 ^ n

/-- Python `/`: raises `ZeroDivisionError` on a zero denominator. -/
def pyDiv (a b : ℚ) : Except Unit ℚ :=
  if b = 0 then .error () else .ok (a / b)

/-- Embedding of `BaseScraper.safe_float` composed with `row.get(key, d)`:
the `Option` is `none` when the cell is missing or unparseable (in which
case the default is returned). -/
def safeFloat (v : Option ℚ) (d : ℚ) : ℚ :=
  v.getD d

/-- Embedding of `BaseScraper.safe_int` composed with `row.get(key, d)`:
`int(float(v))` truncates toward zero; a missing or unparseable value gives
the default. -/
def safeInt (v : Option ℚ) (d : ℤ) : ℤ :=
  match v with
  | none => d
  | some q => pyTrunc q

end PyNum

namespace Models

/-- The `NPBLeague` enumeration of `models.py`. -/
inductive League
  | central
  | pacific
deriving DecidableEq

/-- The `NPBTeam` data model of `models.py`; `source_ids` is the
source-name-to-native-id map, kept as an association list. -/
structure NPBTeam where
  id : String
  name_english : String
  name_japanese : Option String := none
  abbreviation : Option String := none
  league : Option League := none
  city : Option String := none
  stadium : Option String := none
  founded : Option ℤ := none
  source : Option String := none
  source_id : Option String := none
  source_ids : List (String × String) := []
deriving DecidableEq

/-- The `NPBPlayer` data model of `models.py`; `disambiguation_info` models
the attribute set dynamically by `npb_api.py` (absent = `none`). -/
structure NPBPlayer where
  id : String
  name_english : String
  name_japanese : Option String := none
  team : Option NPBTeam := none
  jersey_number : Option String := none
  position : Option String := none
  birth_date : Option String := none
  height : Option String := none
  weight : Option String := none
  bats : Option String := none
  throws : Option String := none
  source : Option String := none
  source_id : Option String := none
  source_ids : List (String × String) := []
  disambiguation_info : Option String := none
deriving DecidableEq

/-- The `NPBPlayerStats` data model of `models.py`. Python floats are exact
rationals, and `last_updated` is an abstract timestamp. -/
structure NPBPlayerStats where
  player_id : String
  season : ℤ
  stats_type : String := "batting"
  team : Option NPBTeam := none
  games : Option ℤ := none
  plate_appearances : Option ℤ := none
  at_bats : Option ℤ := none
  runs : Option ℤ := none
  hits : Option ℤ := none
  doubles : Option ℤ := none
  triples : Option ℤ := none
  home_runs : Option ℤ := none
  rbi : Option ℤ := none
  stolen_bases : Option ℤ := none
  caught_stealing : Option ℤ := none
  walks : Option ℤ := none
  strikeouts : Option ℤ := none
  batting_average : Option ℚ := none
  on_base_percentage : Option ℚ := none
  slugging_percentage : Option ℚ := none
  ops : Option ℚ := none
  wins : Option ℤ := none
  losses : Option ℤ := none
  saves : Option ℤ := none
  holds : Option ℤ := none
  innings_pitched : Option ℚ := none
  hits_allowed : Option ℤ := none
  runs_allowed : Option ℤ := none
  earned_runs : Option ℤ := none
  home_runs_allowed : Option ℤ := none
  walks_allowed : Option ℤ := none
  strikeouts_pitched : Option ℤ := none
  era : Option ℚ := none
  whip : Option ℚ := none
  war : Option ℚ := none
  wrc_plus : Option ℤ := none
  xwoba : Option ℚ := none
  fip : Option ℚ := none
  xfip : Option ℚ := none
  source : Option String := none
  last_updated : Option ℤ := none
deriving DecidableEq

end Models

namespace Aggregator

open Models

/-- Python `f-string` interpolation of an `Optional[str]` (`None` prints as
the four-letter word `None`). -/
def pyStr (o : Option String) : String :=
  match o with
  | none => "None"
  | some s => s

/-- Embedding of `NPBDataAggregator._merge_stats` with Python aliasing made
explicit: `merged = primary` makes `merged` the same heap object as
`primary`, so every assignment to `merged` writes through to `primary`.
The result is `(primary after the call, secondary after the call, returned
merged object)`. -/
def mergeStatsProc (primary secondary : NPBPlayerStats) :
    NPBPlayerStats × NPBPlayerStats × NPBPlayerStats :=
  -- each condition reads a `primary` field that has not yet been assigned
  -- through the `merged` alias, so the reads refer to the original values
  let m := primary
  let m := if secondary.war.isSome ∧ primary.war = none then { m with war := secondary.war } else m
  let m := if secondary.wrc_plus.isSome ∧ primary.wrc_plus = none then { m with wrc_plus := secondary.wrc_plus } else m
  let m := if secondary.xwoba.isSome ∧ primary.xwoba = none then { m with xwoba := secondary.xwoba } else m
  let m := if secondary.fip.isSome ∧ primary.fip = none then { m with fip := secondary.fip } else m
  let m := if secondary.xfip.isSome ∧ primary.xfip = none then { m with xfip := secondary.xfip } else m
  let m := { m with source := some (pyStr primary.source ++ "+" ++ pyStr secondary.source) }
  (m, secondary, m)

/-- The object `_merge_stats` returns. -/
def mergeReturn (primary secondary : NPBPlayerStats) : NPBPlayerStats :=
  (mergeStatsProc primary secondary).2.2

/-- Closed form of the merged object: the primary with each unset advanced
field filled from the secondary and the source tag rewritten (proved equal
to the procedural embedding below). -/
def mergedOf (p s : NPBPlayerStats) : NPBPlayerStats :=
  { p with
    war := if s.war.isSome ∧ p.war = none then s.war else p.war
    wrc_plus := if s.wrc_plus.isSome ∧ p.wrc_plus = none then s.wrc_plus else p.wrc_plus
    xwoba := if s.xwoba.isSome ∧ p.xwoba = none then s.xwoba else p.xwoba
    fip := if s.fip.isSome ∧ p.fip = none then s.fip else p.fip
    xfip := if s.xfip.isSome ∧ p.xfip = none then s.xfip else p.xfip
    source := some (pyStr p.source ++ "+" ++ pyStr s.source) }

/-- One registered data source: its `search_player` and `get_player_stats`
methods, as oracles that may raise (`Except.error`). -/
structure SourceImpl where
  search : String → Except Unit (List NPBPlayer)
  stats : String → Option ℤ → String → Except Unit (Option NPBPlayerStats)

/-- The de-duplicating accumulation loop of `search_player`:
`for player in players: if player.id not in seen_ids: add`. -/
def addPlayers : List NPBPlayer → List NPBPlayer → List String → List NPBPlayer × List String
  | [], acc, seen => (acc, seen)
  | p :: ps, acc, seen =>
    if p.id ∈ seen then addPlayers ps acc seen
    else addPlayers ps (acc ++ [p]) (seen ++ [p.id])

/-- The priority loop of `NPBDataAggregator.search_player` (no explicit
source).  `first` is `source_priorities['player_search'][0]`; the second
component of the result is the list of sources actually queried, in
order. -/
def aggSearchGo (srcs : List (String × SourceImpl)) (name first : String) :
    List String → List NPBPlayer → List String → List String →
    List NPBPlayer × List String
  | [], acc, _seen, trace => (acc, trace)
  | n :: rest, acc, seen, trace =>
    match List.lookup n srcs with
    | none => aggSearchGo srcs name first rest acc seen trace
    | some src =>
      match src.search name with
      | .error _ => aggSearchGo srcs name first rest acc seen (trace ++ [n])
      | .ok players =>
        let step := addPlayers players acc seen
        if step.1 ≠ [] ∧ n = first then (step.1, trace ++ [n])
        else aggSearchGo srcs name first rest step.1 step.2 (trace ++ [n])

/-- Embedding of `NPBDataAggregator.search_player` without an explicit
source: returns the accumulated players and the queried-source trace. -/
def aggSearchPlayer (srcs : List (String × SourceImpl)) (priorities : List String)
    (name : String) : List NPBPlayer × List String :=
  match priorities with
  | [] => ([], [])
  | p0 :: _ => aggSearchGo srcs name p0 priorities [] [] []

/-- The priority loop of `NPBDataAggregator.get_player_stats` (no explicit
source): accumulate a best stats object, merging later sources into it, and
break as soon as the accumulated object has a non-null `war`. -/
def aggStatsGo (srcs : List (String × SourceImpl)) (pid : String) (season : Option ℤ)
    (stype : String) :
    List String → Option NPBPlayerStats → List String →
    Option NPBPlayerStats × List String
  | [], base, trace => (base, trace)
  | n :: rest, base, trace =>
    match List.lookup n srcs with
    | none => aggStatsGo srcs pid season stype rest base trace
    | some src =>
      match src.stats pid season stype with
      | .error _ => aggStatsGo srcs pid season stype rest base (trace ++ [n])
      | .ok none => aggStatsGo srcs pid season stype rest base (trace ++ [n])
      | .ok (some s) =>
        let b2 := match base with
          | none => s
          | some b => mergeReturn b s
        if b2.war.isSome then (some b2, trace ++ [n])
        else aggStatsGo srcs pid season stype rest (some b2) (trace ++ [n])

/-- Embedding of `NPBDataAggregator.get_player_stats` without an explicit
source. -/
def aggGetPlayerStats (srcs : List (String × SourceImpl)) (priorities : List String)
    (pid : String) (season : Option ℤ) (stype : String) :
    Option NPBPlayerStats × List String :=
  aggStatsGo srcs pid season stype priorities none []

end Aggregator

namespace Composite

open PyNum

/-- One season-stat dict as passed around by the provider layer
(`providers/*.py`); an `Option` field is `none` when the key is absent.
`d2`/`d3` would be the doubles/triples columns but those dicts use the
`doubles`/`triples` keys directly. -/
structure StatRow where
  season : Option ℤ := none
  team : Option String := none
  league : Option String := none
  games : Option ℤ := none
  plate_appearances : Option ℤ := none
  at_bats : Option ℤ := none
  runs : Option ℤ := none
  hits : Option ℤ := none
  doubles : Option ℤ := none
  triples : Option ℤ := none
  home_runs : Option ℤ := none
  rbis : Option ℤ := none
  stolen_bases : Option ℤ := none
  caught_stealing : Option ℤ := none
  walks : Option ℤ := none
  strikeouts : Option ℤ := none
  wins : Option ℤ := none
  losses : Option ℤ := none
  games_started : Option ℤ := none
  complete_games : Option ℤ := none
  shutouts : Option ℤ := none
  saves : Option ℤ := none
  innings_pitched : Option ℚ := none
  hits_allowed : Option ℤ := none
  runs_allowed : Option ℤ := none
  earned_runs : Option ℤ := none
  home_runs_allowed : Option ℤ := none
deriving DecidableEq

/-- Python `sum(s.get(key, 0) for s in rows)` for an integer-valued key. -/
def sumField (rows : List StatRow) (f : StatRow → Option ℤ) : ℤ :=
  (rows.map (fun r => (f r).getD 0)).sum

/-- Python `sum(s.get(key, 0) for s in rows)` for a float-valued key. -/
def sumFieldQ (rows : List StatRow) (f : StatRow → Option ℚ) : ℚ :=
  (rows.map (fun r => (f r).getD 0)).sum

/-- The dict built by `CompositeProvider._calculate_batting_totals`. -/
structure BattingTotals where
  seasons : ℕ
  games : ℤ
  at_bats : ℤ
  runs : ℤ
  hits : ℤ
  doubles : ℤ
  triples : ℤ
  home_runs : ℤ
  rbis : ℤ
  stolen_bases : ℤ
  walks : ℤ
  strikeouts : ℤ
  batting_average : ℚ
deriving DecidableEq

/-- Embedding of `CompositeProvider._calculate_batting_totals`; the
`Except` layer carries a possible `ZeroDivisionError` of Python `/`. -/
def calcBattingTotals (rows : List StatRow) : Except Unit BattingTotals := do
  let hits := sumField rows (fun r => r.hits)
  let at_bats := sumField rows (fun r => r.at_bats)
  let ba ←
    if 0 < at_bats then do
      let q ← pyDiv (hits : ℚ) (at_bats : ℚ)
      pure (pyRound q 3)
    else pure (0 : ℚ)
  pure
    { seasons := rows.length
      games := sumField rows (fun r => r.games)
      at_bats := at_bats
      runs := sumField rows (fun r => r.runs)
      hits := hits
      doubles := sumField rows (fun r => r.doubles)
      triples := sumField rows (fun r => r.triples)
      home_runs := sumField rows (fun r => r.home_runs)
      rbis := sumField rows (fun r => r.rbis)
      stolen_bases := sumField rows (fun r => r.stolen_bases)
      walks := sumField rows (fun r => r.walks)
      strikeouts := sumField rows (fun r => r.strikeouts)
      batting_average := ba }

/-- The dict built by `CompositeProvider._calculate_pitching_totals`. -/
structure PitchingTotals where
  seasons : ℕ
  wins : ℤ
  losses : ℤ
  games : ℤ
  games_started : ℤ
  complete_games : ℤ
  shutouts : ℤ
  saves : ℤ
  innings_pitched : ℚ
  hits_allowed : ℤ
  earned_runs : ℤ
  walks : ℤ
  strikeouts : ℤ
  era : ℚ
  whip : ℚ
deriving DecidableEq

/-- Embedding of `CompositeProvider._calculate_pitching_totals`. -/
def calcPitchingTotals (rows : List StatRow) : Except Unit PitchingTotals := do
  let innings_pitched := sumFieldQ rows (fun r => r.innings_pitched)
  let earned_runs := sumField rows (fun r => r.earned_runs)
  let hits_allowed := sumField rows (fun r => r.hits_allowed)
  let walks := sumField rows (fun r => r.walks)
  let era ←
    if 0 < innings_pitched then do
      let q ← pyDiv ((earned_runs : ℚ) * 9) innings_pitched
      pure (pyRound q 2)
    else pure (0 : ℚ)
  let whip ←
    if 0 < innings_pitched then do
      let q ← pyDiv ((hits_allowed : ℚ) + (walks : ℚ)) innings_pitched
      pure (pyRound q 3)
    else pure (0 : ℚ)
  pure
    { seasons := rows.length
      wins := sumField rows (fun r => r.wins)
      losses := sumField rows (fun r => r.losses)
      games := sumField rows (fun r => r.games)
      games_started := sumField rows (fun r => r.games_started)
      complete_games := sumField rows (fun r => r.complete_games)
      shutouts := sumField rows (fun r => r.shutouts)
      saves := sumField rows (fun r => r.saves)
      innings_pitched := innings_pitched
      hits_allowed := hits_allowed
      earned_runs := earned_runs
      walks := walks
      strikeouts := sumField rows (fun r => r.strikeouts)
      era := era
      whip := whip }

/-- A `career_totals` value in a provider response: freshly recomputed
batting/pitching totals, or an opaque stored row from the historical
database. -/
inductive CareerTotalsVal
  | fromBatting (t : BattingTotals)
  | fromPitching (t : PitchingTotals)
  | storedRaw (tag : String)
deriving DecidableEq

/-- A provider response dict (`get_player_stats` of the provider layer);
absent keys are `none` / `[]`. -/
structure StatsResp where
  error : Option String := none
  stats : List StatRow := []
  stats_type : Option String := none
  career_totals : Option CareerTotalsVal := none
  source : Option String := none
deriving DecidableEq

/-- Sort key used on season rows: `x.get("season", 0)`. -/
def seasonKey (r : StatRow) : ℤ :=
  (r.season).getD 0

/-- Insertion step of a stable sort by `seasonKey` (Python `sorted` is
stable: an element is inserted before the first position whose key is not
smaller, keeping equal-key elements in their original order). -/
def insertByKey (x : StatRow) : List StatRow → List StatRow
  | [] => [x]
  | y :: ys => if seasonKey y < seasonKey x then y :: insertByKey x ys else x :: y :: ys

/-- Stable sort by `seasonKey`, modelling
`sorted(all_stats, key=lambda x: x.get("season", 0))`. -/
def sortBySeason : List StatRow → List StatRow
  | [] => []
  | x :: xs => insertByKey x (sortBySeason xs)

/-- The `seen_years` de-duplication loop: keep a row only if its `season`
value has not been seen yet. -/
def dedupeBySeason : List StatRow → List (Option ℤ) → List StatRow
  | [], _ => []
  | r :: rs, seen =>
    if r.season ∈ seen then dedupeBySeason rs seen
    else r :: dedupeBySeason rs (r.season :: seen)

/-- Lines 104-113 of `composite_provider.py`: concatenate the two season
lists, sort by season, and drop later rows with an already-seen season. -/
def mergeSeasonRows (histRows modernRows : List StatRow) : List StatRow :=
  dedupeBySeason (sortBySeason (histRows ++ modernRows)) []

/-- Python `max(stat.get("season", 0) for stat in rows)` (callers guarantee
`rows` is non-empty; the empty case is arbitrary). -/
def lastYearOf (rows : List StatRow) : ℤ :=
  match rows with
  | [] => 0
  | r :: rs => rs.foldl (fun m s => max m (seasonKey s)) (seasonKey r)

/-- One observable provider invocation made by the composite provider. -/
inductive ProvCall
  | hist (pid : String) (season : Option ℤ) (stype : String)
  | scrap (pid : String) (season : Option ℤ) (stype : String)
deriving DecidableEq

/-- The two wrapped providers of `CompositeProvider`, as oracles. -/
structure CompositeEnv where
  histGet : String → Option ℤ → String → Except Unit StatsResp
  scrapGet : String → Option ℤ → String → Except Unit StatsResp

/-- The career branch of `CompositeProvider.get_player_stats` (reached when
`season` is falsy); `origSeason` is the original argument, which the final
fall-through passes to the scraper unchanged. The second component is the
trace of provider calls, in order. -/
def compositeCareerPath (env : CompositeEnv) (pid : String) (origSeason : Option ℤ)
    (stype : String) : Except Unit StatsResp × List ProvCall :=
  match env.histGet pid none stype with
  | .error e => (.error e, [.hist pid none stype])
  | .ok h =>
    if h.error = none then
      if h.stats ≠ [] then
        if 2005 - 1 ≤ lastYearOf h.stats then
          match env.scrapGet pid none stype with
          | .error _ =>
            -- the surrounding try/except logs and returns the historical data
            (.ok h, [.hist pid none stype, .scrap pid none stype])
          | .ok m =>
            if m.error = none ∧ m.stats ≠ [] then
              let unique := mergeSeasonRows h.stats m.stats
              -- `historical_stats` is mutated in place before the career
              -- totals are recomputed, so a raise inside the recomputation
              -- would be caught with the mutation already applied
              let h1 : StatsResp := { h with stats := unique, source := some "combined" }
              if h.stats_type = some "batting" then
                match calcBattingTotals unique with
                | .ok t =>
                  (.ok { h1 with career_totals := some (.fromBatting t) },
                   [.hist pid none stype, .scrap pid none stype])
                | .error _ => (.ok h1, [.hist pid none stype, .scrap pid none stype])
              else if h.stats_type = some "pitching" then
                match calcPitchingTotals unique with
                | .ok t =>
                  (.ok { h1 with career_totals := some (.fromPitching t) },
                   [.hist pid none stype, .scrap pid none stype])
                | .error _ => (.ok h1, [.hist pid none stype, .scrap pid none stype])
              else (.ok h1, [.hist pid none stype, .scrap pid none stype])
            else (.ok h, [.hist pid none stype, .scrap pid none stype])
        else (.ok h, [.hist pid none stype])
      else (.ok h, [.hist pid none stype])
    else
      (env.scrapGet pid origSeason stype, [.hist pid none stype, .scrap pid origSeason stype])

/-- Embedding of `CompositeProvider.get_player_stats`. Python's `if season:`
is truthiness: `None` and `0` both select the career branch. -/
def compositeGetPlayerStats (env : CompositeEnv) (pid : String) (season : Option ℤ)
    (stype : String) : Except Unit StatsResp × List ProvCall :=
  match season with
  | some s =>
    if s ≠ 0 then
      if s < 2005 then (env.histGet pid (some s) stype, [.hist pid (some s) stype])
      else (env.scrapGet pid (some s) stype, [.scrap pid (some s) stype])
    else compositeCareerPath env pid season stype
  | none => compositeCareerPath env pid none stype

end Composite

namespace ScraperProv

open PyNum Composite

/-- The batting accumulator dict initialized with zeros in
`ScraperProvider._calculate_career_totals`. -/
structure SBatAcc where
  games : ℤ := 0
  plate_appearances : ℤ := 0
  at_bats : ℤ := 0
  runs : ℤ := 0
  hits : ℤ := 0
  doubles : ℤ := 0
  triples : ℤ := 0
  home_runs : ℤ := 0
  rbis : ℤ := 0
  stolen_bases : ℤ := 0
  caught_stealing : ℤ := 0
  walks : ℤ := 0
  strikeouts : ℤ := 0
deriving DecidableEq

/-- One iteration of `for season in stats_list: for key in totals:
totals[key] += season.get(key, 0)` for the batting accumulator. -/
def sBatStep (t : SBatAcc) (s : StatRow) : SBatAcc :=
  { games := t.games + (s.games).getD 0
    plate_appearances := t.plate_appearances + (s.plate_appearances).getD 0
    at_bats := t.at_bats + (s.at_bats).getD 0
    runs := t.runs + (s.runs).getD 0
    hits := t.hits + (s.hits).getD 0
    doubles := t.doubles + (s.doubles).getD 0
    triples := t.triples + (s.triples).getD 0
    home_runs := t.home_runs + (s.home_runs).getD 0
    rbis := t.rbis + (s.rbis).getD 0
    stolen_bases := t.stolen_bases + (s.stolen_bases).getD 0
    caught_stealing := t.caught_stealing + (s.caught_stealing).getD 0
    walks := t.walks + (s.walks).getD 0
    strikeouts := t.strikeouts + (s.strikeouts).getD 0 }

/-- The batting career-totals dict of
`ScraperProvider._calculate_career_totals` (counting sums plus the four
recomputed rate fields, none of them rounded). -/
structure SBatTotals extends SBatAcc where
  batting_average : ℚ
  on_base_percentage : ℚ
  slugging_percentage : ℚ
  ops : ℚ
deriving DecidableEq

/-- The batting branch of `ScraperProvider._calculate_career_totals`. -/
def scraperBattingTotals (rows : List StatRow) : Except Unit SBatTotals := do
  let t := rows.foldl sBatStep {}
  let ba ←
    if 0 < t.at_bats then pyDiv (t.hits : ℚ) (t.at_bats : ℚ)
    else pure (0 : ℚ)
  let obp ←
    if 0 < t.plate_appearances then
      pyDiv ((t.hits : ℚ) + (t.walks : ℚ)) (t.plate_appearances : ℚ)
    else pure (0 : ℚ)
  let slg ←
    if 0 < t.at_bats then
      pyDiv ((t.hits : ℚ) + (t.doubles : ℚ) + (t.triples : ℚ) * 2 + (t.home_runs : ℚ) * 3)
        (t.at_bats : ℚ)
    else pure (0 : ℚ)
  pure
    { toSBatAcc := t
      batting_average := ba
      on_base_percentage := obp
      slugging_percentage := slg
      ops := obp + slg }

/-- The pitching accumulator dict initialized with zeros (note
`innings_pitched` starts as the float `0.0`). -/
structure SPitAcc where
  games : ℤ := 0
  games_started : ℤ := 0
  complete_games : ℤ := 0
  shutouts : ℤ := 0
  wins : ℤ := 0
  losses : ℤ := 0
  saves : ℤ := 0
  innings_pitched : ℚ := 0
  hits_allowed : ℤ := 0
  runs_allowed : ℤ := 0
  earned_runs : ℤ := 0
  home_runs_allowed : ℤ := 0
  walks : ℤ := 0
  strikeouts : ℤ := 0
deriving DecidableEq

/-- One iteration of the accumulation loop for the pitching accumulator. -/
def sPitStep (t : SPitAcc) (s : StatRow) : SPitAcc :=
  { games := t.games + (s.games).getD 0
    games_started := t.games_started + (s.games_started).getD 0
    complete_games := t.complete_games + (s.complete_games).getD 0
    shutouts := t.shutouts + (s.shutouts).getD 0
    wins := t.wins + (s.wins).getD 0
    losses := t.losses + (s.losses).getD 0
    saves := t.saves + (s.saves).getD 0
    innings_pitched := t.innings_pitched + (s.innings_pitched).getD 0
    hits_allowed := t.hits_allowed + (s.hits_allowed).getD 0
    runs_allowed := t.runs_allowed + (s.runs_allowed).getD 0
    earned_runs := t.earned_runs + (s.earned_runs).getD 0
    home_runs_allowed := t.home_runs_allowed + (s.home_runs_allowed).getD 0
    walks := t.walks + (s.walks).getD 0
    strikeouts := t.strikeouts + (s.strikeouts).getD 0 }

/-- The pitching career-totals dict (counting sums plus four recomputed,
unrounded rate fields). -/
structure SPitTotals extends SPitAcc where
  era : ℚ
  whip : ℚ
  strikeouts_per_nine : ℚ
  walks_per_nine : ℚ
deriving DecidableEq

/-- The pitching branch of `ScraperProvider._calculate_career_totals`. -/
def scraperPitchingTotals (rows : List StatRow) : Except Unit SPitTotals := do
  let t := rows.foldl sPitStep {}
  let era ←
    if 0 < t.innings_pitched then pyDiv ((t.earned_runs : ℚ) * 9) t.innings_pitched
    else pure (0 : ℚ)
  let whip ←
    if 0 < t.innings_pitched then
      pyDiv ((t.hits_allowed : ℚ) + (t.walks : ℚ)) t.innings_pitched
    else pure (0 : ℚ)
  let so9 ←
    if 0 < t.innings_pitched then pyDiv ((t.strikeouts : ℚ) * 9) t.innings_pitched
    else pure (0 : ℚ)
  let bb9 ←
    if 0 < t.innings_pitched then pyDiv ((t.walks : ℚ) * 9) t.innings_pitched
    else pure (0 : ℚ)
  pure
    { toSPitAcc := t
      era := era
      whip := whip
      strikeouts_per_nine := so9
      walks_per_nine := bb9 }

/-- Result of `ScraperProvider._calculate_career_totals`: an empty dict for
an empty list or an unknown stats type, else the branch's totals dict. -/
inductive SCareerResult
  | empty
  | battingT (t : SBatTotals)
  | pitchingT (t : SPitTotals)
deriving DecidableEq

/-- Embedding of `ScraperProvider._calculate_career_totals`. -/
def scraperCalcCareerTotals (rows : List StatRow) (stype : String) :
    Except Unit SCareerResult :=
  if rows = [] then .ok .empty
  else if stype = "batting" then (scraperBattingTotals rows).map .battingT
  else if stype = "pitching" then (scraperPitchingTotals rows).map .pitchingT
  else .ok .empty

end ScraperProv

namespace Extract

open PyNum

/-- A parsed row of the Baseball-Reference batting table: each field is the
numeric value of the corresponding column's cell (`none` when the cell is
missing or unparseable, in which case `safe_float`/`safe_int` return their
default). `d2`/`d3` stand for the `2B`/`3B` columns. -/
structure BRRow where
  year : Option ℚ := none
  tm : Option String := none
  lg : Option String := none
  g : Option ℚ := none
  pa : Option ℚ := none
  ab : Option ℚ := none
  r : Option ℚ := none
  h : Option ℚ := none
  d2 : Option ℚ := none
  d3 : Option ℚ := none
  hr : Option ℚ := none
  rbi : Option ℚ := none
  sb : Option ℚ := none
  cs : Option ℚ := none
  bb : Option ℚ := none
  so : Option ℚ := none
  ba : Option ℚ := none
  obp : Option ℚ := none
  slg : Option ℚ := none
  ops : Option ℚ := none
  opsPlus : Option ℚ := none
deriving DecidableEq

/-- The stats dict built per row by
`BaseballReferenceScraper._extract_batting_stats`. -/
structure BRBattingStats where
  season : ℤ
  team : String
  league : String
  games : ℤ
  plate_appearances : ℤ
  at_bats : ℤ
  runs : ℤ
  hits : ℤ
  doubles : ℤ
  triples : ℤ
  home_runs : ℤ
  rbis : ℤ
  stolen_bases : ℤ
  caught_stealing : ℤ
  walks : ℤ
  strikeouts : ℤ
  batting_average : ℚ
  on_base_percentage : ℚ
  slugging_percentage : ℚ
  ops : ℚ
  ops_plus : ℤ
deriving DecidableEq

/-- Embedding of the per-row stats construction of
`BaseballReferenceScraper._extract_batting_stats`: every rate field is
`safe_float` of the source cell, taken verbatim. -/
def brRowToStats (row : BRRow) : BRBattingStats :=
  { season := safeInt row.year 0
    team := row.tm.getD ""
    league := row.lg.getD ""
    games := safeInt row.g 0
    plate_appearances := safeInt row.pa 0
    at_bats := safeInt row.ab 0
    runs := safeInt row.r 0
    hits := safeInt row.h 0
    doubles := safeInt row.d2 0
    triples := safeInt row.d3 0
    home_runs := safeInt row.hr 0
    rbis := safeInt row.rbi 0
    stolen_bases := safeInt row.sb 0
    caught_stealing := safeInt row.cs 0
    walks := safeInt row.bb 0
    strikeouts := safeInt row.so 0
    batting_average := safeFloat row.ba 0
    on_base_percentage := safeFloat row.obp 0
    slugging_percentage := safeFloat row.slg 0
    ops := safeFloat row.ops 0
    ops_plus := safeInt row.opsPlus 0 }

/-- Cell access `cells[k]` with the `if len(cells) > k else 0` guard of the
NPB-official scraper collapsed into an `Option` (out of range or
unparseable gives the `safe_*` default). -/
def cellQ (cells : List (Option ℚ)) (k : ℕ) : Option ℚ :=
  (cells.get? k).join

/-- The stats dict built per row by
`NPBOfficialScraper._extract_batting_stats` (cells 2..23 of a team batting
page row). -/
structure NPBBattingStats where
  player_id : String
  player_name : String
  season : ℤ
  team : String
  games : ℤ
  plate_appearances : ℤ
  at_bats : ℤ
  runs : ℤ
  hits : ℤ
  doubles : ℤ
  triples : ℤ
  home_runs : ℤ
  rbis : ℤ
  stolen_bases : ℤ
  walks : ℤ
  strikeouts : ℤ
  batting_average : ℚ
  slugging_percentage : ℚ
  on_base_percentage : ℚ
  ops : Option ℚ
deriving DecidableEq

/-- Embedding of the per-row stats construction of
`NPBOfficialScraper._extract_batting_stats`: `BA`, `SLG`, `OBP` are taken
verbatim from cells 21-23, and `ops` is set to `OBP + SLG` (unrounded) only
when `BA > 0` or `OBP > 0`, else the key is absent. -/
def npbRowToStats (player_id player_name : String) (season : ℤ) (team : String)
    (cells : List (Option ℚ)) : NPBBattingStats :=
  let ba := safeFloat (cellQ cells 21) 0
  let slg := safeFloat (cellQ cells 22) 0
  let obp := safeFloat (cellQ cells 23) 0
  { player_id := player_id
    player_name := player_name
    season := season
    team := team
    games := safeInt (cellQ cells 2) 0
    plate_appearances := safeInt (cellQ cells 3) 0
    at_bats := safeInt (cellQ cells 4) 0
    runs := safeInt (cellQ cells 5) 0
    hits := safeInt (cellQ cells 6) 0
    doubles := safeInt (cellQ cells 7) 0
    triples := safeInt (cellQ cells 8) 0
    home_runs := safeInt (cellQ cells 9) 0
    rbis := safeInt (cellQ cells 11) 0
    stolen_bases := safeInt (cellQ cells 14) 0
    walks := safeInt (cellQ cells 16) 0
    strikeouts := safeInt (cellQ cells 18) 0
    batting_average := ba
    slugging_percentage := slg
    on_base_percentage := obp
    ops := if 0 < ba ∨ 0 < obp then some (obp + slg) else none }

end Extract

namespace SmartSel

open Models Aggregator NameUtils

/-- Truthiness test `stats and stats.games and stats.games > 0` of
`check_player_has_npb_stats`. -/
def statsHasGames : Option NPBPlayerStats → Bool
  | none => false
  | some s =>
    match s.games with
    | none => false
    | some g => decide (0 < g)

/-- Embedding of `check_player_has_npb_stats`: probe batting stats, then
pitching stats; any raised error means "no stats". The `probe` oracle is
`aggregator.get_player_stats(id, None, stats_type)`. -/
def hasNPBStats (probe : String → String → Except Unit (Option NPBPlayerStats))
    (p : NPBPlayer) : Bool :=
  match probe p.id "batting" with
  | .error _ => false
  | .ok st =>
    if statsHasGames st then true
    else
      match probe p.id "pitching" with
      | .error _ => false
      | .ok st2 => statsHasGames st2

/-- Lower-cased code points of a name, for the substring tests of the
hard-coded MLB cross-reference branch. -/
def lowerCodes (s : String) : List Nat :=
  (strCodes s).map pyToLower

/-- The hard-coded trigger in `search_npb_player_with_smart_selection`:
an id starting with `br_mlb_` whose display name contains `cabrera` and
`alex` (case-insensitively). -/
def isCabreraMlb (p : NPBPlayer) : Bool :=
  (strCodes "br_mlb_").isPrefixOf (strCodes p.id)
    && containsSeq (strCodes "cabrera") (lowerCodes p.name_english)
    && containsSeq (strCodes "alex") (lowerCodes p.name_english)

/-- The synthesized register candidate for the hard-coded Alex Cabrera
mapping (constructor also fills `source_ids` since source and source id are
both truthy). -/
def mkRegisterCabrera (p : NPBPlayer) : NPBPlayer :=
  { id := "br_cabrer001ale"
    name_english := p.name_english
    source := some "baseball_reference"
    source_id := some "cabrer001ale"
    source_ids := [("baseball_reference", "cabrer001ale")]
    disambiguation_info := some "MLB/NPB player" }

/-- The decision outcome of `search_npb_player_with_smart_selection`, with
the formatted strings abstracted into constructors: `single` is the
one-match case, `autoSelected` the unambiguous auto-selection,
`ambiguousWithStats` the still-ambiguous case (flagged, with the count of
stat-less candidates also reported), and `noneWithStats` the full original
candidate list with the "none have NPB stats" note. -/
inductive SmartResult
  | noMatches
  | single (p : NPBPlayer)
  | autoSelected (p : NPBPlayer)
  | ambiguousWithStats (withStats : List NPBPlayer) (withoutCount : ℕ)
  | noneWithStats (allPlayers : List NPBPlayer)
deriving DecidableEq

/-- Embedding of the decision logic of
`search_npb_player_with_smart_selection`, given the search result
`players` and the stats oracle. `asyncio.gather` returns results in task
order, so the concurrent probe is the ordered map below. -/
def smartSelect (players : List NPBPlayer)
    (probe : String → String → Except Unit (Option NPBPlayerStats)) : SmartResult :=
  match players with
  | [] => .noMatches
  | [p] => .single p
  | _ =>
    let results := players.map (fun p => (p, hasNPBStats probe p))
    let withStats := (results.filter (fun pr => pr.2)).map (fun pr => pr.1)
    let withoutStats := (results.filter (fun pr => !pr.2)).map (fun pr => pr.1)
    let withStats2 :=
      if withStats = [] then
        let mlbChecks := withoutStats.filterMap
          (fun p => if isCabreraMlb p then some (mkRegisterCabrera p) else none)
        withStats ++ mlbChecks.filter (hasNPBStats probe)
      else withStats
    match withStats2 with
    | [p] => .autoSelected p
    | [] => .noneWithStats players
    | _ => .ambiguousWithStats withStats2 withoutStats.length

end SmartSel

namespace Inputs

open Models Aggregator Composite ScraperProv Extract SmartSel

/-- An environment whose providers both answer with an empty response. -/
def envA : CompositeEnv :=
  ⟨fun _ _ _ => .ok {}, fun _ _ _ => .ok {}⟩

/-- An environment whose historical provider knows one 2004 season row (so
the career branch also probes the scraper). -/
def envB : CompositeEnv :=
  ⟨fun _ _ _ => .ok { stats := [{ season := some 2004 }] }, fun _ _ _ => .ok {}⟩

/-- A bare primary stats object (no advanced fields, no source). -/
def statsP : NPBPlayerStats :=
  { player_id := "p1", season := 2020 }

/-- A secondary stats object carrying `war` and a source tag. -/
def statsS : NPBPlayerStats :=
  { player_id := "p1", season := 2020, war := some 5, source := some "fangraphs" }

/-- A primary stats object whose advanced fields are already populated. -/
def statsW : NPBPlayerStats :=
  { player_id := "p1", season := 2020, war := some 1, wrc_plus := some 110
    xwoba := some (7 / 20), fip := some 3, xfip := some 3, source := some "npb_official" }

/-- A source whose stats carry `war` but no `fip`. -/
def srcWar : SourceImpl :=
  ⟨fun _ => .ok [], fun _ _ _ => .ok (some { player_id := "p", season := 2020, war := some 1 })⟩

/-- A source whose stats carry `fip` but no `war`. -/
def srcFip : SourceImpl :=
  ⟨fun _ => .ok [], fun _ _ _ => .ok (some { player_id := "p", season := 2020, fip := some 2 })⟩

/-- The two-source registry used against the stats-fallback claims. -/
def srcsC7 : List (String × SourceImpl) :=
  [("a", srcWar), ("b", srcFip)]

/-- A search source returning one fixed player. -/
def srcOnePlayer : SourceImpl :=
  ⟨fun _ => .ok [{ id := "x1", name_english := "Some Player" }], fun _ _ _ => .ok none⟩

/-- A search source returning two players, one sharing the id `x1`. -/
def srcTwoPlayers : SourceImpl :=
  ⟨fun _ => .ok [{ id := "x1", name_english := "Some Player" },
                 { id := "x2", name_english := "Other Player" }],
   fun _ _ _ => .ok none⟩

/-- The two-source registry used for the search short-circuit claim. -/
def srcsC6 : List (String × SourceImpl) :=
  [("a", srcOnePlayer), ("b", srcTwoPlayers)]

/-- Three historical season rows (2001-2003; hits distinguish rows). -/
def histRows : List StatRow :=
  [{ season := some 2001, hits := some 101 },
   { season := some 2002, hits := some 102 },
   { season := some 2003, hits := some 103 }]

/-- Two scraper season rows (2003-2004) whose 2003 row differs from the
historical one. -/
def modernRows : List StatRow :=
  [{ season := some 2003, hits := some 203 },
   { season := some 2004, hits := some 204 }]

/-- An environment realizing the spec's career-merge example: historical
seasons 2001-2003 and scraper seasons 2003-2004. -/
def envC4 : CompositeEnv :=
  ⟨fun _ _ _ => .ok { stats := histRows, stats_type := some "batting" },
   fun _ _ _ => .ok { stats := modernRows, stats_type := some "batting" }⟩

/-- Historical season rows reaching cutoff-1 (2002-2004), so the career
branch actually merges. -/
def histRowsW : List StatRow :=
  [{ season := some 2002, hits := some 102 },
   { season := some 2003, hits := some 103 },
   { season := some 2004, hits := some 104 }]

/-- Scraper season rows 2004-2005 overlapping the historical 2004. -/
def modernRowsW : List StatRow :=
  [{ season := some 2004, hits := some 204 },
   { season := some 2005, hits := some 205 }]

/-- An environment whose career request triggers the merge branch. -/
def envC4w : CompositeEnv :=
  ⟨fun _ _ _ => .ok { stats := histRowsW, stats_type := some "batting" },
   fun _ _ _ => .ok { stats := modernRowsW, stats_type := some "batting" }⟩

/-- A search candidate matching the hard-coded MLB Alex Cabrera pattern. -/
def cabA : NPBPlayer :=
  { id := "br_mlb_cabrea01", name_english := "Alex Cabrera" }

/-- A second same-named candidate without the MLB id prefix. -/
def cabB : NPBPlayer :=
  { id := "npb_cabrera", name_english := "Alex Cabrera" }

/-- A stats oracle that only knows batting games for the hard-coded register
id `br_cabrer001ale`. -/
def probeC8 : String → String → Except Unit (Option Models.NPBPlayerStats) :=
  fun id ty =>
    if id = "br_cabrer001ale" ∧ ty = "batting" then
      .ok (some { player_id := "br_cabrer001ale", season := 0, games := some 10 })
    else .ok none

/-- Two plain same-named candidates. -/
def pW1 : NPBPlayer :=
  { id := "w1", name_english := "Taro Yamada" }

/-- Second plain candidate. -/
def pW2 : NPBPlayer :=
  { id := "w2", name_english := "Taro Yamada" }

/-- A stats oracle knowing batting games only for `w1`. -/
def probeOne : String → String → Except Unit (Option Models.NPBPlayerStats) :=
  fun id ty =>
    if id = "w1" ∧ ty = "batting" then
      .ok (some { player_id := "w1", season := 0, games := some 3 })
    else .ok none

/-- A stats oracle knowing batting games for both `w1` and `w2`. -/
def probeBoth : String → String → Except Unit (Option Models.NPBPlayerStats) :=
  fun id ty =>
    if (id = "w1" ∨ id = "w2") ∧ ty = "batting" then
      .ok (some { player_id := id, season := 0, games := some 3 })
    else .ok none

/-- A stats oracle knowing no stats at all. -/
def probeNone : String → String → Except Unit (Option Models.NPBPlayerStats) :=
  fun _ _ => .ok none

/-- A Baseball-Reference batting row whose `OPS` column (0.8) disagrees
with `OBP + SLG` (0.3 + 0.4): the scraper copies the OPS cell verbatim. -/
def brRowBad : BRRow :=
  { ab := some 400, obp := some (3 / 10), slg := some (2 / 5), ops := some (4 / 5) }

/-- An NPB-official batting row (cells 21-23 hold BA 0.300, SLG 0.400,
OBP 0.300). -/
def cellsW : List (Option ℚ) :=
  List.replicate 21 (none : Option ℚ) ++ [some (3 / 10), some (2 / 5), some (3 / 10)]

/-- Two batting season rows with non-zero denominators. -/
def rows5 : List StatRow :=
  [{ season := some 2001, games := some 2, plate_appearances := some 5, at_bats := some 4
     hits := some 2, doubles := some 1, triples := some 0, home_runs := some 1
     walks := some 1 },
   { season := some 2002, games := some 3, plate_appearances := some 7, at_bats := some 6
     hits := some 3 }]

end Inputs

namespace Claims

open Models Aggregator Composite ScraperProv Extract SmartSel PyNum NameUtils Inputs

/-- The procedural merge equals its closed form. -/
theorem mergeStatsProc_eq (p s : NPBPlayerStats) :
    mergeStatsProc p s = (mergedOf p s, s, mergedOf p s) := by
  simp only [mergeStatsProc, mergedOf]
  split_ifs <;> rfl

/-- C3, counterexample: the claim quantifies over every explicitly given
season, but `if season:` is Python truthiness, so the explicitly given
season `0` (which is `< 2005`) falls into the career branch, which can
invoke the scraper provider: under `envB` the call with `season = 0`
produces a scraper invocation. -/
theorem claim3_counterexample :
    (0 : ℤ) < 2005 ∧
    ProvCall.scrap "p" none "batting"
      ∈ (compositeGetPlayerStats envB "p" (some 0) "batting").2 := by
  decide

/-- C3 (amended): for every explicitly given non-zero season, routing by
cutoff year invokes only the historical provider when the season is below
2005 and only the scraper provider otherwise. -/
theorem claim3_routing (env : CompositeEnv) (pid stype : String) (s : ℤ) (hs : s ≠ 0) :
    (s < 2005 → compositeGetPlayerStats env pid (some s) stype
        = (env.histGet pid (some s) stype, [ProvCall.hist pid (some s) stype])) ∧
    (2005 ≤ s → compositeGetPlayerStats env pid (some s) stype
        = (env.scrapGet pid (some s) stype, [ProvCall.scrap pid (some s) stype])) := by
  constructor
  · intro h
    simp [compositeGetPlayerStats, hs, h]
  · intro h
    have h2 : ¬ s < 2005 := by omega
    simp [compositeGetPlayerStats, hs, h2]

/-- C3, witness: the amended routing theorem applied at season 1999 and at
season 2010 under `envA`. -/
theorem claim3_witness :
    compositeGetPlayerStats envA "p" (some 1999) "batting"
        = (envA.histGet "p" (some 1999) "batting", [ProvCall.hist "p" (some 1999) "batting"]) ∧
    compositeGetPlayerStats envA "p" (some 2010) "batting"
        = (envA.scrapGet "p" (some 2010) "batting", [ProvCall.scrap "p" (some 2010) "batting"]) :=
  ⟨(claim3_routing envA "p" "batting" 1999 (by decide)).1 (by decide),
   (claim3_routing envA "p" "batting" 2010 (by decide)).2 (by decide)⟩

/-- C9, counterexample: `_merge_stats` starts with `merged = primary`, which
aliases the primary input, and then assigns fields of `merged`; in
particular the source tag is always rewritten, so the primary input is not
unchanged after the merge. -/
theorem claim9_counterexample :
    (mergeStatsProc statsP statsS).1 ≠ statsP := by
  decide

/-- C9 (amended): the merge never mutates the secondary input, and the
returned merged object is the primary input mutated in place; on the
primary, only the five optional advanced fields and the source tag are
written (all identity/counting/rate fields are framed), an advanced field
already populated on the primary is never overwritten, and an unset one is
filled from the secondary. -/
theorem claim9_frame (p s : NPBPlayerStats) :
    (mergeStatsProc p s).2.1 = s ∧
    (mergeStatsProc p s).2.2 = (mergeStatsProc p s).1 ∧
    ((mergeStatsProc p s).1.player_id = p.player_id ∧
      (mergeStatsProc p s).1.season = p.season ∧
      (mergeStatsProc p s).1.stats_type = p.stats_type ∧
      (mergeStatsProc p s).1.team = p.team ∧
      (mergeStatsProc p s).1.games = p.games ∧
      (mergeStatsProc p s).1.at_bats = p.at_bats ∧
      (mergeStatsProc p s).1.hits = p.hits ∧
      (mergeStatsProc p s).1.ops = p.ops ∧
      (mergeStatsProc p s).1.era = p.era ∧
      (mergeStatsProc p s).1.whip = p.whip ∧
      (mergeStatsProc p s).1.last_updated = p.last_updated) ∧
    (p.war.isSome → (mergeStatsProc p s).1.war = p.war) ∧
    (p.war = none → (mergeStatsProc p s).1.war = s.war) ∧
    (p.fip.isSome → (mergeStatsProc p s).1.fip = p.fip) ∧
    (p.fip = none → (mergeStatsProc p s).1.fip = s.fip) := by
  rw [mergeStatsProc_eq]
  refine ⟨rfl, rfl, ?_, ?_, ?_, ?_, ?_⟩
  · exact ⟨rfl, rfl, rfl, rfl, rfl, rfl, rfl, rfl, rfl, rfl, rfl⟩
  · intro h
    have h2 : ¬ (s.war.isSome ∧ p.war = none) := by
      rintro ⟨-, h3⟩
      rw [h3] at h
      simp at h
    simp [mergedOf, h2]
  · intro h
    cases hw : s.war with
    | none => simp [mergedOf, hw, h]
    | some v => simp [mergedOf, hw, h]
  · intro h
    have h2 : ¬ (s.fip.isSome ∧ p.fip = none) := by
      rintro ⟨-, h3⟩
      rw [h3] at h
      simp at h
    simp [mergedOf, h2]
  · intro h
    cases hw : s.fip with
    | none => simp [mergedOf, hw, h]
    | some v => simp [mergedOf, hw, h]

/-- C9, witness: the frame theorem applied to a populated primary and the
`war`-carrying secondary. -/
theorem claim9_witness :
    (mergeStatsProc statsW statsS).2.1 = statsS ∧
    (mergeStatsProc statsW statsS).1.war = statsW.war ∧
    (mergeStatsProc statsP statsS).1.war = statsS.war :=
  ⟨(claim9_frame statsW statsS).1,
   (claim9_frame statsW statsS).2.2.2.1 (by decide),
   (claim9_frame statsP statsS).2.2.2.2.1 (by decide)⟩

/-- Filling one optional field never overwrites a populated value and fills
an unset one. -/
theorem fillField {α : Type} [DecidableEq α] (x y : Option α) :
    (x.isSome → (if y.isSome ∧ x = none then y else x) = x) ∧
    (x = none → (if y.isSome ∧ x = none then y else x) = y) := by
  constructor
  · intro h
    rw [if_neg]
    rintro ⟨-, h2⟩
    simp [h2] at h
  · intro h
    cases y with
    | none => simp [h]
    | some v => simp [h]

/-- The trace of the stats-fallback loop extends its accumulator. -/
theorem aggStatsGo_trace_extends (srcs : List (String × Aggregator.SourceImpl))
    (pid : String) (season : Option ℤ) (stype : String) :
    ∀ (l : List String) (base : Option NPBPlayerStats) (trace : List String),
      ∃ t, (aggStatsGo srcs pid season stype l base trace).2 = trace ++ t := by
  intro l
  induction l with
  | nil =>
    intro base trace
    exact ⟨[], by simp [aggStatsGo]⟩
  | cons n rest ih =>
    intro base trace
    simp only [aggStatsGo]
    cases h1 : List.lookup n srcs with
    | none =>
      dsimp only
      exact ih base trace
    | some src =>
      dsimp only
      cases h2 : src.stats pid season stype with
      | error e =>
        dsimp only
        obtain ⟨t, ht⟩ := ih base (trace ++ [n])
        exact ⟨[n] ++ t, by rw [ht]; simp⟩
      | ok st =>
        cases st with
        | none =>
          dsimp only
          obtain ⟨t, ht⟩ := ih base (trace ++ [n])
          exact ⟨[n] ++ t, by rw [ht]; simp⟩
        | some s =>
          dsimp only
          cases base with
          | none =>
            dsimp only
            by_cases h3 : s.war.isSome = true
            · rw [if_pos h3]
              exact ⟨[n], rfl⟩
            · rw [if_neg h3]
              obtain ⟨t, ht⟩ := ih (some s) (trace ++ [n])
              exact ⟨[n] ++ t, by rw [ht]; simp⟩
          | some b =>
            dsimp only
            by_cases h3 : (mergeReturn b s).war.isSome = true
            · rw [if_pos h3]
              exact ⟨[n], rfl⟩
            · rw [if_neg h3]
              obtain ⟨t, ht⟩ := ih (some (mergeReturn b s)) (trace ++ [n])
              exact ⟨[n] ++ t, by rw [ht]; simp⟩

/-- If a configured source was never visited by the stats-fallback loop, the
loop broke early, which only happens with a populated `war`. -/
theorem aggStatsGo_unvisited (srcs : List (String × Aggregator.SourceImpl))
    (pid : String) (season : Option ℤ) (stype : String) :
    ∀ (l : List String) (base : Option NPBPlayerStats) (trace : List String)
      (n : String) (src : Aggregator.SourceImpl),
      n ∈ l → List.lookup n srcs = some src →
      n ∉ (aggStatsGo srcs pid season stype l base trace).2 →
      ∃ st, (aggStatsGo srcs pid season stype l base trace).1 = some st ∧
        st.war.isSome := by
  intro l
  induction l with
  | nil =>
    intro base trace n src hn
    exact absurd hn (List.not_mem_nil n)
  | cons m rest ih =>
    intro base trace n src hn hlook hnot
    rcases List.mem_cons.mp hn with heq | hmem
    · subst heq
      -- n is the current source: it must have been visited unless the loop
      -- already broke, and a break returns a war-carrying result
      simp only [aggStatsGo] at hnot ⊢
      cases h1 : List.lookup n srcs with
      | none => rw [h1] at hlook; exact absurd hlook (by simp)
      | some src2 =>
        simp only [h1] at hnot ⊢
        cases h2 : src2.stats pid season stype with
        | error e =>
          simp only [h2] at hnot
          obtain ⟨t, ht⟩ := aggStatsGo_trace_extends srcs pid season stype rest base (trace ++ [n])
          rw [ht] at hnot
          exact absurd (by simp) hnot
        | ok st =>
          cases st with
          | none =>
            simp only [h2] at hnot
            obtain ⟨t, ht⟩ := aggStatsGo_trace_extends srcs pid season stype rest base (trace ++ [n])
            rw [ht] at hnot
            exact absurd (by simp) hnot
          | some s =>
            simp only [h2] at hnot ⊢
            cases base with
            | none =>
              dsimp only at hnot ⊢
              by_cases h3 : s.war.isSome = true
              · rw [if_pos h3] at hnot
                exact absurd (by simp) hnot
              · rw [if_neg h3] at hnot
                obtain ⟨t, ht⟩ := aggStatsGo_trace_extends srcs pid season stype rest
                  (some s) (trace ++ [n])
                rw [ht] at hnot
                exact absurd (by simp) hnot
            | some b =>
              dsimp only at hnot ⊢
              by_cases h3 : (mergeReturn b s).war.isSome = true
              · rw [if_pos h3] at hnot
                exact absurd (by simp) hnot
              · rw [if_neg h3] at hnot
                obtain ⟨t, ht⟩ := aggStatsGo_trace_extends srcs pid season stype rest
                  (some (mergeReturn b s)) (trace ++ [n])
                rw [ht] at hnot
                exact absurd (by simp) hnot
    · -- n occurs later in the priority list
      simp only [aggStatsGo] at hnot ⊢
      cases h1 : List.lookup m srcs with
      | none =>
        simp only [h1] at hnot ⊢
        exact ih base trace n src hmem hlook hnot
      | some src2 =>
        simp only [h1] at hnot ⊢
        cases h2 : src2.stats pid season stype with
        | error e =>
          simp only [h2] at hnot ⊢
          exact ih base (trace ++ [m]) n src hmem hlook hnot
        | ok st =>
          cases st with
          | none =>
            simp only [h2] at hnot ⊢
            exact ih base (trace ++ [m]) n src hmem hlook hnot
          | some s =>
            simp only [h2] at hnot ⊢
            cases base with
            | none =>
              dsimp only at hnot ⊢
              by_cases h3 : s.war.isSome = true
              · rw [if_pos h3] at hnot ⊢
                exact ⟨_, rfl, h3⟩
              · rw [if_neg h3] at hnot ⊢
                exact ih _ (trace ++ [m]) n src hmem hlook hnot
            | some b =>
              dsimp only at hnot ⊢
              by_cases h3 : (mergeReturn b s).war.isSome = true
              · rw [if_pos h3] at hnot ⊢
                exact ⟨_, rfl, h3⟩
              · rw [if_neg h3] at hnot ⊢
                exact ih _ (trace ++ [m]) n src hmem hlook hnot

/-- The accumulator of the search de-duplication loop only grows. -/
theorem addPlayers_extends :
    ∀ (ps acc : List NPBPlayer) (seen : List String),
      ∃ t, (addPlayers ps acc seen).1 = acc ++ t := by
  intro ps
  induction ps with
  | nil => intro acc seen; exact ⟨[], by simp [addPlayers]⟩
  | cons p ps ih =>
    intro acc seen
    simp only [addPlayers]
    by_cases h : p.id ∈ seen
    · rw [if_pos h]
      exact ih acc seen
    · rw [if_neg h]
      obtain ⟨t, ht⟩ := ih (acc ++ [p]) (seen ++ [p.id])
      exact ⟨[p] ++ t, by rw [ht]; simp⟩

/-- The search de-duplication loop keeps the accumulated ids `Nodup` and in
sync with the seen-set. -/
theorem addPlayers_invariant :
    ∀ (ps acc : List NPBPlayer) (seen : List String),
      ((acc.map (fun p => p.id)).Nodup) →
      (∀ x, x ∈ acc.map (fun p => p.id) ↔ x ∈ seen) →
      (((addPlayers ps acc seen).1.map (fun p => p.id)).Nodup ∧
        ∀ x, x ∈ (addPlayers ps acc seen).1.map (fun p => p.id) ↔
          x ∈ (addPlayers ps acc seen).2) := by
  intro ps
  induction ps with
  | nil =>
    intro acc seen hnd hiff
    exact ⟨hnd, hiff⟩
  | cons p ps ih =>
    intro acc seen hnd hiff
    simp only [addPlayers]
    by_cases h : p.id ∈ seen
    · rw [if_pos h]
      exact ih acc seen hnd hiff
    · rw [if_neg h]
      refine ih (acc ++ [p]) (seen ++ [p.id]) ?_ ?_
      · have hpid : p.id ∉ acc.map (fun q => q.id) := fun hc => h ((hiff p.id).mp hc)
        simp [List.nodup_append, hnd, hpid]
      · intro x
        simp only [List.map_append, List.map_cons, List.map_nil, List.mem_append,
          List.mem_singleton]
        constructor
        · rintro (hx | hx)
          · exact Or.inl ((hiff x).mp hx)
          · exact Or.inr hx
        · rintro (hx | hx)
          · exact Or.inl ((hiff x).mpr hx)
          · exact Or.inr hx

/-- The accumulated player list of the search priority loop has `Nodup`
ids, given a `Nodup` accumulator in sync with the seen-set. -/
theorem aggSearchGo_nodup (srcs : List (String × Aggregator.SourceImpl))
    (name first : String) :
    ∀ (l : List String) (acc : List NPBPlayer) (seen trace : List String),
      ((acc.map (fun p => p.id)).Nodup) →
      (∀ x, x ∈ acc.map (fun p => p.id) ↔ x ∈ seen) →
      (((aggSearchGo srcs name first l acc seen trace).1.map (fun p => p.id)).Nodup) := by
  intro l
  induction l with
  | nil =>
    intro acc seen trace hnd hiff
    exact hnd
  | cons n rest ih =>
    intro acc seen trace hnd hiff
    simp only [aggSearchGo]
    cases h1 : List.lookup n srcs with
    | none =>
      dsimp only
      exact ih acc seen trace hnd hiff
    | some src =>
      dsimp only
      cases h2 : src.search name with
      | error e =>
        dsimp only
        exact ih acc seen (trace ++ [n]) hnd hiff
      | ok players =>
        dsimp only
        by_cases h3 : (addPlayers players acc seen).1 ≠ [] ∧ n = first
        · rw [if_pos h3]
          exact (addPlayers_invariant players acc seen hnd hiff).1
        · rw [if_neg h3]
          exact ih (addPlayers players acc seen).1 (addPlayers players acc seen).2
            (trace ++ [n]) (addPlayers_invariant players acc seen hnd hiff).1
            (addPlayers_invariant players acc seen hnd hiff).2

/-- C6 (confirmed): if the first-priority source is configured and returns
at least one search result, the priority loop queries that source alone
(the trace is exactly the first-priority name), and — in general — the
accumulated search results are de-duplicated by player id. -/
theorem claim6_search :
    (∀ (srcs : List (String × Aggregator.SourceImpl)) (p0 : String)
        (rest : List String) (name : String) (src : Aggregator.SourceImpl)
        (l : List NPBPlayer),
        List.lookup p0 srcs = some src → src.search name = .ok l → l ≠ [] →
        (aggSearchPlayer srcs (p0 :: rest) name).2 = [p0]) ∧
    (∀ (srcs : List (String × Aggregator.SourceImpl)) (priorities : List String)
        (name : String),
        (((aggSearchPlayer srcs priorities name).1.map (fun p => p.id)).Nodup)) := by
  constructor
  · intro srcs p0 rest name src l h1 h2 h3
    simp only [aggSearchPlayer, aggSearchGo]
    simp only [h1]
    simp only [h2]
    have hne : (addPlayers l [] []).1 ≠ [] := by
      cases l with
      | nil => exact absurd rfl h3
      | cons p ps =>
        simp only [addPlayers, List.not_mem_nil, if_false, List.nil_append]
        obtain ⟨t, ht⟩ := addPlayers_extends ps [p] [p.id]
        rw [ht]
        simp
    rw [if_pos ⟨hne, trivial⟩]
    simp
  · intro srcs priorities name
    cases priorities with
    | nil => simp [aggSearchPlayer]
    | cons p0 rest =>
      exact aggSearchGo_nodup srcs name p0 (p0 :: rest) [] [] [] (by simp) (by simp)

/-- C6, witness: under `srcsC6`, where the first-priority source returns one
player, only source `a` is queried and the result ids are duplicate-free. -/
theorem claim6_witness :
    (aggSearchPlayer srcsC6 ["a", "b"] "x").2 = ["a"] ∧
    (((aggSearchPlayer srcsC6 ["a", "b"] "x").1.map (fun p => p.id)).Nodup) :=
  ⟨claim6_search.1 srcsC6 "a" ["b"] "x" srcOnePlayer
      [{ id := "x1", name_english := "Some Player" }] rfl rfl (by simp),
   claim6_search.2 srcsC6 ["a", "b"] "x"⟩

/-- C7, counterexample: with a first source carrying `war` but no `fip` and
a second source carrying `fip`, the fallback loop stops after the first
source (trace `["a"]`) with `fip` still unset — it does not keep iterating
until every optional advanced field is populated, contradicting the claim's
stop condition. -/
theorem claim7_counterexample :
    (aggGetPlayerStats srcsC7 ["a", "b"] "p" none "batting").2 = ["a"] ∧
    ((aggGetPlayerStats srcsC7 ["a", "b"] "p" none "batting").1.bind
        (fun s => s.fip)) = none ∧
    (srcFip.stats "p" none "batting" = .ok (some { player_id := "p", season := 2020, fip := some 2 })) := by
  refine ⟨?_, ?_, rfl⟩ <;> decide

/-- C7 (amended): the stats fallback merges each provider's optional
advanced fields only into unset fields (never overwriting a populated one),
but it stops iterating early as soon as the `war` field alone is populated
— the other optional advanced fields need not be: if some configured
provider of the priority list was never queried, the accumulated result has
a populated `war`. -/
theorem claim7_war_short_circuit :
    (∀ (srcs : List (String × Aggregator.SourceImpl)) (priorities : List String)
        (pid : String) (season : Option ℤ) (stype : String) (n : String)
        (src : Aggregator.SourceImpl),
        n ∈ priorities → List.lookup n srcs = some src →
        n ∉ (aggGetPlayerStats srcs priorities pid season stype).2 →
        ∃ st, (aggGetPlayerStats srcs priorities pid season stype).1 = some st ∧
          st.war.isSome) ∧
    (∀ b s : NPBPlayerStats,
        (b.war.isSome → (mergeReturn b s).war = b.war) ∧
        (b.war = none → (mergeReturn b s).war = s.war) ∧
        (b.wrc_plus.isSome → (mergeReturn b s).wrc_plus = b.wrc_plus) ∧
        (b.wrc_plus = none → (mergeReturn b s).wrc_plus = s.wrc_plus) ∧
        (b.xwoba.isSome → (mergeReturn b s).xwoba = b.xwoba) ∧
        (b.xwoba = none → (mergeReturn b s).xwoba = s.xwoba) ∧
        (b.fip.isSome → (mergeReturn b s).fip = b.fip) ∧
        (b.fip = none → (mergeReturn b s).fip = s.fip) ∧
        (b.xfip.isSome → (mergeReturn b s).xfip = b.xfip) ∧
        (b.xfip = none → (mergeReturn b s).xfip = s.xfip)) := by
  constructor
  · intro srcs priorities pid season stype n src hn hlook hnot
    exact aggStatsGo_unvisited srcs pid season stype priorities none [] n src hn hlook hnot
  · intro b s
    have hm : mergeReturn b s = mergedOf b s := by
      rw [mergeReturn, mergeStatsProc_eq]
    rw [hm]
    exact ⟨(fillField b.war s.war).1, (fillField b.war s.war).2,
      (fillField b.wrc_plus s.wrc_plus).1, (fillField b.wrc_plus s.wrc_plus).2,
      (fillField b.xwoba s.xwoba).1, (fillField b.xwoba s.xwoba).2,
      (fillField b.fip s.fip).1, (fillField b.fip s.fip).2,
      (fillField b.xfip s.xfip).1, (fillField b.xfip s.xfip).2⟩

/-- C7, witness: under `srcsC7` with reversed priorities the `fip`-only
first source does not populate `war`, so the second source is also queried
and `war` is merged in; the short-circuit theorem applied to the original
priorities confirms source `b` is skipped only with `war` populated. -/
theorem claim7_witness :
    (∃ st, (aggGetPlayerStats srcsC7 ["a", "b"] "p" none "batting").1 = some st ∧
      st.war.isSome) ∧
    (mergeReturn { player_id := "p", season := 2020 } statsS).war = statsS.war :=
  ⟨(claim7_war_short_circuit.1 srcsC7 ["a", "b"] "p" none "batting" "b" srcFip
      (by decide) rfl (by decide)),
   (claim7_war_short_circuit.2 { player_id := "p", season := 2020 } statsS).2.1 rfl⟩

/-- Closed form of the composite batting career totals: counting fields are
the sums, and the batting average is the guarded rounded ratio of the
sums. -/
theorem calcBattingTotals_eq (rows : List StatRow) :
    calcBattingTotals rows = .ok
      { seasons := rows.length
        games := sumField rows (fun r => r.games)
        at_bats := sumField rows (fun r => r.at_bats)
        runs := sumField rows (fun r => r.runs)
        hits := sumField rows (fun r => r.hits)
        doubles := sumField rows (fun r => r.doubles)
        triples := sumField rows (fun r => r.triples)
        home_runs := sumField rows (fun r => r.home_runs)
        rbis := sumField rows (fun r => r.rbis)
        stolen_bases := sumField rows (fun r => r.stolen_bases)
        walks := sumField rows (fun r => r.walks)
        strikeouts := sumField rows (fun r => r.strikeouts)
        batting_average :=
          if 0 < sumField rows (fun r => r.at_bats) then
            pyRound ((sumField rows (fun r => r.hits) : ℚ)
              / (sumField rows (fun r => r.at_bats) : ℚ)) 3
          else 0 } := by
  by_cases h : 0 < sumField rows (fun r => r.at_bats)
  · have hz : ((sumField rows (fun r => r.at_bats) : ℤ) : ℚ) ≠ 0 := by
      exact_mod_cast (by omega : (sumField rows (fun r => r.at_bats) : ℤ) ≠ 0)
    simp [calcBattingTotals, pyDiv, h, hz, bind, Except.bind, pure, Except.pure]
  · simp [calcBattingTotals, h, bind, Except.bind, pure, Except.pure]

/-- Closed form of the composite pitching career totals. -/
theorem calcPitchingTotals_eq (rows : List StatRow) :
    calcPitchingTotals rows = .ok
      { seasons := rows.length
        wins := sumField rows (fun r => r.wins)
        losses := sumField rows (fun r => r.losses)
        games := sumField rows (fun r => r.games)
        games_started := sumField rows (fun r => r.games_started)
        complete_games := sumField rows (fun r => r.complete_games)
        shutouts := sumField rows (fun r => r.shutouts)
        saves := sumField rows (fun r => r.saves)
        innings_pitched := sumFieldQ rows (fun r => r.innings_pitched)
        hits_allowed := sumField rows (fun r => r.hits_allowed)
        earned_runs := sumField rows (fun r => r.earned_runs)
        walks := sumField rows (fun r => r.walks)
        strikeouts := sumField rows (fun r => r.strikeouts)
        era :=
          if 0 < sumFieldQ rows (fun r => r.innings_pitched) then
            pyRound (((sumField rows (fun r => r.earned_runs) : ℚ) * 9)
              / sumFieldQ rows (fun r => r.innings_pitched)) 2
          else 0
        whip :=
          if 0 < sumFieldQ rows (fun r => r.innings_pitched) then
            pyRound (((sumField rows (fun r => r.hits_allowed) : ℚ)
                + (sumField rows (fun r => r.walks) : ℚ))
              / sumFieldQ rows (fun r => r.innings_pitched)) 3
          else 0 } := by
  by_cases h : 0 < sumFieldQ rows (fun r => r.innings_pitched)
  · have hz : sumFieldQ rows (fun r => r.innings_pitched) ≠ 0 := ne_of_gt h
    simp [calcPitchingTotals, pyDiv, h, hz, bind, Except.bind, pure, Except.pure]
  · simp [calcPitchingTotals, h, bind, Except.bind, pure, Except.pure]

/-- The batting accumulation loop computes exactly the per-key sums. -/
theorem sBatFold (rows : List StatRow) :
    ∀ t0 : SBatAcc,
      rows.foldl sBatStep t0 =
        { games := t0.games + sumField rows (fun r => r.games)
          plate_appearances := t0.plate_appearances + sumField rows (fun r => r.plate_appearances)
          at_bats := t0.at_bats + sumField rows (fun r => r.at_bats)
          runs := t0.runs + sumField rows (fun r => r.runs)
          hits := t0.hits + sumField rows (fun r => r.hits)
          doubles := t0.doubles + sumField rows (fun r => r.doubles)
          triples := t0.triples + sumField rows (fun r => r.triples)
          home_runs := t0.home_runs + sumField rows (fun r => r.home_runs)
          rbis := t0.rbis + sumField rows (fun r => r.rbis)
          stolen_bases := t0.stolen_bases + sumField rows (fun r => r.stolen_bases)
          caught_stealing := t0.caught_stealing + sumField rows (fun r => r.caught_stealing)
          walks := t0.walks + sumField rows (fun r => r.walks)
          strikeouts := t0.strikeouts + sumField rows (fun r => r.strikeouts) } := by
  induction rows with
  | nil => intro t0; simp [sumField]
  | cons r rs ih =>
    intro t0
    rw [List.foldl_cons, ih]
    simp only [sBatStep, sumField, List.map_cons, List.sum_cons, SBatAcc.mk.injEq]
    omega

/-- The pitching accumulation loop computes exactly the per-key sums. -/
theorem sPitFold (rows : List StatRow) :
    ∀ t0 : SPitAcc,
      rows.foldl sPitStep t0 =
        { games := t0.games + sumField rows (fun r => r.games)
          games_started := t0.games_started + sumField rows (fun r => r.games_started)
          complete_games := t0.complete_games + sumField rows (fun r => r.complete_games)
          shutouts := t0.shutouts + sumField rows (fun r => r.shutouts)
          wins := t0.wins + sumField rows (fun r => r.wins)
          losses := t0.losses + sumField rows (fun r => r.losses)
          saves := t0.saves + sumField rows (fun r => r.saves)
          innings_pitched := t0.innings_pitched + sumFieldQ rows (fun r => r.innings_pitched)
          hits_allowed := t0.hits_allowed + sumField rows (fun r => r.hits_allowed)
          runs_allowed := t0.runs_allowed + sumField rows (fun r => r.runs_allowed)
          earned_runs := t0.earned_runs + sumField rows (fun r => r.earned_runs)
          home_runs_allowed := t0.home_runs_allowed + sumField rows (fun r => r.home_runs_allowed)
          walks := t0.walks + sumField rows (fun r => r.walks)
          strikeouts := t0.strikeouts + sumField rows (fun r => r.strikeouts) } := by
  induction rows with
  | nil => intro t0; simp [sumField, sumFieldQ]
  | cons r rs ih =>
    intro t0
    rw [List.foldl_cons, ih]
    simp only [sPitStep, sumField, sumFieldQ, List.map_cons, List.sum_cons, SPitAcc.mk.injEq]
    refine ⟨?_, ?_, ?_, ?_, ?_, ?_, ?_, ?_, ?_, ?_, ?_, ?_, ?_, ?_⟩ <;> ring

/-- Closed form of the scraper batting career totals: the accumulator holds
the sums and every rate field is the guarded, unrounded ratio of those
sums; `ops` is the sum of the recomputed `obp` and `slg`. -/
theorem scraperBattingTotals_eq (rows : List StatRow) :
    scraperBattingTotals rows =
      (fun t => .ok
        { toSBatAcc := t
          batting_average := if 0 < t.at_bats then (t.hits : ℚ) / (t.at_bats : ℚ) else 0
          on_base_percentage :=
            if 0 < t.plate_appearances then
              ((t.hits : ℚ) + (t.walks : ℚ)) / (t.plate_appearances : ℚ)
            else 0
          slugging_percentage :=
            if 0 < t.at_bats then
              ((t.hits : ℚ) + (t.doubles : ℚ) + (t.triples : ℚ) * 2 + (t.home_runs : ℚ) * 3)
                / (t.at_bats : ℚ)
            else 0
          ops :=
            (if 0 < t.plate_appearances then
                ((t.hits : ℚ) + (t.walks : ℚ)) / (t.plate_appearances : ℚ)
              else 0) +
            (if 0 < t.at_bats then
                ((t.hits : ℚ) + (t.doubles : ℚ) + (t.triples : ℚ) * 2 + (t.home_runs : ℚ) * 3)
                  / (t.at_bats : ℚ)
              else 0) })
        (rows.foldl sBatStep {}) := by
  by_cases h1 : 0 < (rows.foldl sBatStep {}).at_bats <;>
    by_cases h2 : 0 < (rows.foldl sBatStep {}).plate_appearances
  all_goals
    first
    | (have hz1 : (((rows.foldl sBatStep {}).at_bats : ℤ) : ℚ) ≠ 0 := by
          exact_mod_cast (by omega : ((rows.foldl sBatStep {}).at_bats : ℤ) ≠ 0)
       have hz2 : (((rows.foldl sBatStep {}).plate_appearances : ℤ) : ℚ) ≠ 0 := by
          exact_mod_cast (by omega : ((rows.foldl sBatStep {}).plate_appearances : ℤ) ≠ 0)
       simp [scraperBattingTotals, pyDiv, h1, h2, hz1, hz2, bind, Except.bind, pure, Except.pure])
    | (have hz1 : (((rows.foldl sBatStep {}).at_bats : ℤ) : ℚ) ≠ 0 := by
          exact_mod_cast (by omega : ((rows.foldl sBatStep {}).at_bats : ℤ) ≠ 0)
       simp [scraperBattingTotals, pyDiv, h1, h2, hz1, bind, Except.bind, pure, Except.pure])
    | (have hz2 : (((rows.foldl sBatStep {}).plate_appearances : ℤ) : ℚ) ≠ 0 := by
          exact_mod_cast (by omega : ((rows.foldl sBatStep {}).plate_appearances : ℤ) ≠ 0)
       simp [scraperBattingTotals, pyDiv, h1, h2, hz2, bind, Except.bind, pure, Except.pure])
    | simp [scraperBattingTotals, pyDiv, h1, h2, bind, Except.bind, pure, Except.pure]

/-- Closed form of the scraper pitching career totals. -/
theorem scraperPitchingTotals_eq (rows : List StatRow) :
    scraperPitchingTotals rows =
      (fun t => .ok
        { toSPitAcc := t
          era := if 0 < t.innings_pitched then ((t.earned_runs : ℚ) * 9) / t.innings_pitched else 0
          whip :=
            if 0 < t.innings_pitched then
              ((t.hits_allowed : ℚ) + (t.walks : ℚ)) / t.innings_pitched
            else 0
          strikeouts_per_nine :=
            if 0 < t.innings_pitched then ((t.strikeouts : ℚ) * 9) / t.innings_pitched else 0
          walks_per_nine :=
            if 0 < t.innings_pitched then ((t.walks : ℚ) * 9) / t.innings_pitched else 0 })
        (rows.foldl sPitStep {}) := by
  by_cases h : 0 < (rows.foldl sPitStep {}).innings_pitched
  · have hz : (rows.foldl sPitStep {}).innings_pitched ≠ 0 := ne_of_gt h
    simp [scraperPitchingTotals, pyDiv, h, hz, bind, Except.bind, pure, Except.pure]
  · simp [scraperPitchingTotals, pyDiv, h, bind, Except.bind, pure, Except.pure]

/-- C10 (confirmed): every career-totals computation is total — the
division-by-zero error branch is unreachable — and a zero summed
denominator forces the corresponding rate fields to the value `0.0`
instead: batting average (and, in the scraper version, slugging) for zero
summed at-bats, on-base percentage for zero summed plate appearances, and
ERA/WHIP for zero summed innings pitched; the empty list is also safe. -/
theorem claim10_no_div_by_zero :
    (∀ rows : List StatRow, ∃ t, calcBattingTotals rows = .ok t ∧
      (¬ 0 < sumField rows (fun r => r.at_bats) → t.batting_average = 0)) ∧
    (∀ rows : List StatRow, ∃ t, calcPitchingTotals rows = .ok t ∧
      (¬ 0 < sumFieldQ rows (fun r => r.innings_pitched) → t.era = 0 ∧ t.whip = 0)) ∧
    (∀ (rows : List StatRow) (stype : String), ∃ u,
      scraperCalcCareerTotals rows stype = .ok u) ∧
    (∀ rows : List StatRow, rows ≠ [] →
      ∃ t, scraperCalcCareerTotals rows "batting" = .ok (.battingT t) ∧
        (¬ 0 < t.at_bats → t.batting_average = 0 ∧ t.slugging_percentage = 0) ∧
        (¬ 0 < t.plate_appearances → t.on_base_percentage = 0)) ∧
    (∀ rows : List StatRow, rows ≠ [] →
      ∃ t, scraperCalcCareerTotals rows "pitching" = .ok (.pitchingT t) ∧
        (¬ 0 < t.innings_pitched → t.era = 0 ∧ t.whip = 0)) := by
  refine ⟨?_, ?_, ?_, ?_, ?_⟩
  · intro rows
    refine ⟨_, calcBattingTotals_eq rows, ?_⟩
    intro h
    simp [h]
  · intro rows
    refine ⟨_, calcPitchingTotals_eq rows, ?_⟩
    intro h
    simp [h]
  · intro rows stype
    by_cases h0 : rows = []
    · exact ⟨.empty, by simp [scraperCalcCareerTotals, h0]⟩
    · by_cases hb : stype = "batting"
      · rw [hb]
        have h5 : scraperCalcCareerTotals rows "batting"
            = (scraperBattingTotals rows).map SCareerResult.battingT := by
          simp [scraperCalcCareerTotals, h0]
        rw [h5, scraperBattingTotals_eq rows]
        exact ⟨_, rfl⟩
      · by_cases hp : stype = "pitching"
        · rw [hp]
          have h5 : scraperCalcCareerTotals rows "pitching"
              = (scraperPitchingTotals rows).map SCareerResult.pitchingT := by
            simp [scraperCalcCareerTotals, h0]
          rw [h5, scraperPitchingTotals_eq rows]
          exact ⟨_, rfl⟩
        · exact ⟨.empty, by simp [scraperCalcCareerTotals, h0, hb, hp]⟩
  · intro rows h0
    have h5 : scraperCalcCareerTotals rows "batting"
        = (scraperBattingTotals rows).map SCareerResult.battingT := by
      simp [scraperCalcCareerTotals, h0]
    rw [h5, scraperBattingTotals_eq rows]
    refine ⟨_, rfl, ?_, ?_⟩
    · intro h
      simp [h]
    · intro h
      simp [h]
  · intro rows h0
    have h5 : scraperCalcCareerTotals rows "pitching"
        = (scraperPitchingTotals rows).map SCareerResult.pitchingT := by
      simp [scraperCalcCareerTotals, h0]
    rw [h5, scraperPitchingTotals_eq rows]
    refine ⟨_, rfl, ?_⟩
    intro h
    simp [h]

/-- C5 (confirmed): in every career-totals computation (composite batting
and pitching, scraper batting and pitching), each counting field of the
produced aggregate equals the sum of that field over the contributing
season rows, and every rate field present is recomputed from those summed
totals (guarded by its denominator), never taken from per-season rates; in
the scraper version OPS is the sum of the recomputed OBP and SLG. -/
theorem claim5_career_totals :
    (∀ (rows : List StatRow) (t : BattingTotals), calcBattingTotals rows = .ok t →
      (t.seasons = rows.length ∧
        t.games = sumField rows (fun r => r.games) ∧
        t.at_bats = sumField rows (fun r => r.at_bats) ∧
        t.runs = sumField rows (fun r => r.runs) ∧
        t.hits = sumField rows (fun r => r.hits) ∧
        t.doubles = sumField rows (fun r => r.doubles) ∧
        t.triples = sumField rows (fun r => r.triples) ∧
        t.home_runs = sumField rows (fun r => r.home_runs) ∧
        t.rbis = sumField rows (fun r => r.rbis) ∧
        t.stolen_bases = sumField rows (fun r => r.stolen_bases) ∧
        t.walks = sumField rows (fun r => r.walks) ∧
        t.strikeouts = sumField rows (fun r => r.strikeouts)) ∧
      (0 < t.at_bats → t.batting_average = pyRound ((t.hits : ℚ) / (t.at_bats : ℚ)) 3)) ∧
    (∀ (rows : List StatRow) (t : PitchingTotals), calcPitchingTotals rows = .ok t →
      (t.seasons = rows.length ∧
        t.wins = sumField rows (fun r => r.wins) ∧
        t.losses = sumField rows (fun r => r.losses) ∧
        t.games = sumField rows (fun r => r.games) ∧
        t.games_started = sumField rows (fun r => r.games_started) ∧
        t.complete_games = sumField rows (fun r => r.complete_games) ∧
        t.shutouts = sumField rows (fun r => r.shutouts) ∧
        t.saves = sumField rows (fun r => r.saves) ∧
        t.innings_pitched = sumFieldQ rows (fun r => r.innings_pitched) ∧
        t.hits_allowed = sumField rows (fun r => r.hits_allowed) ∧
        t.earned_runs = sumField rows (fun r => r.earned_runs) ∧
        t.walks = sumField rows (fun r => r.walks) ∧
        t.strikeouts = sumField rows (fun r => r.strikeouts)) ∧
      (0 < t.innings_pitched →
        t.era = pyRound (((t.earned_runs : ℚ) * 9) / t.innings_pitched) 2 ∧
        t.whip = pyRound (((t.hits_allowed : ℚ) + (t.walks : ℚ)) / t.innings_pitched) 3)) ∧
    (∀ (rows : List StatRow) (t : SBatTotals), scraperBattingTotals rows = .ok t →
      (t.games = sumField rows (fun r => r.games) ∧
        t.plate_appearances = sumField rows (fun r => r.plate_appearances) ∧
        t.at_bats = sumField rows (fun r => r.at_bats) ∧
        t.runs = sumField rows (fun r => r.runs) ∧
        t.hits = sumField rows (fun r => r.hits) ∧
        t.doubles = sumField rows (fun r => r.doubles) ∧
        t.triples = sumField rows (fun r => r.triples) ∧
        t.home_runs = sumField rows (fun r => r.home_runs) ∧
        t.rbis = sumField rows (fun r => r.rbis) ∧
        t.stolen_bases = sumField rows (fun r => r.stolen_bases) ∧
        t.caught_stealing = sumField rows (fun r => r.caught_stealing) ∧
        t.walks = sumField rows (fun r => r.walks) ∧
        t.strikeouts = sumField rows (fun r => r.strikeouts)) ∧
      (0 < t.at_bats → t.batting_average = (t.hits : ℚ) / (t.at_bats : ℚ)) ∧
      (0 < t.plate_appearances →
        t.on_base_percentage = ((t.hits : ℚ) + (t.walks : ℚ)) / (t.plate_appearances : ℚ)) ∧
      (0 < t.at_bats →
        t.slugging_percentage =
          ((t.hits : ℚ) + (t.doubles : ℚ) + (t.triples : ℚ) * 2 + (t.home_runs : ℚ) * 3)
            / (t.at_bats : ℚ)) ∧
      t.ops = t.on_base_percentage + t.slugging_percentage) ∧
    (∀ (rows : List StatRow) (t : SPitTotals), scraperPitchingTotals rows = .ok t →
      (t.games = sumField rows (fun r => r.games) ∧
        t.games_started = sumField rows (fun r => r.games_started) ∧
        t.complete_games = sumField rows (fun r => r.complete_games) ∧
        t.shutouts = sumField rows (fun r => r.shutouts) ∧
        t.wins = sumField rows (fun r => r.wins) ∧
        t.losses = sumField rows (fun r => r.losses) ∧
        t.saves = sumField rows (fun r => r.saves) ∧
        t.innings_pitched = sumFieldQ rows (fun r => r.innings_pitched) ∧
        t.hits_allowed = sumField rows (fun r => r.hits_allowed) ∧
        t.runs_allowed = sumField rows (fun r => r.runs_allowed) ∧
        t.earned_runs = sumField rows (fun r => r.earned_runs) ∧
        t.home_runs_allowed = sumField rows (fun r => r.home_runs_allowed) ∧
        t.walks = sumField rows (fun r => r.walks) ∧
        t.strikeouts = sumField rows (fun r => r.strikeouts)) ∧
      (0 < t.innings_pitched →
        t.era = ((t.earned_runs : ℚ) * 9) / t.innings_pitched ∧
        t.whip = ((t.hits_allowed : ℚ) + (t.walks : ℚ)) / t.innings_pitched)) := by
  refine ⟨?_, ?_, ?_, ?_⟩
  · intro rows t h
    rw [calcBattingTotals_eq] at h
    obtain rfl := (Except.ok.inj h).symm
    refine ⟨⟨rfl, rfl, rfl, rfl, rfl, rfl, rfl, rfl, rfl, rfl, rfl, rfl⟩, ?_⟩
    intro h0
    have h0' : 0 < sumField rows (fun r => r.at_bats) := h0
    simp only [if_pos h0']
  · intro rows t h
    rw [calcPitchingTotals_eq] at h
    obtain rfl := (Except.ok.inj h).symm
    refine ⟨⟨rfl, rfl, rfl, rfl, rfl, rfl, rfl, rfl, rfl, rfl, rfl, rfl, rfl⟩, ?_⟩
    intro h0
    have h0' : 0 < sumFieldQ rows (fun r => r.innings_pitched) := h0
    simp [if_pos h0']
  · intro rows t h
    rw [scraperBattingTotals_eq] at h
    obtain rfl := (Except.ok.inj h).symm
    refine ⟨?_, ?_, ?_, ?_, ?_⟩
    · rw [sBatFold rows ({} : SBatAcc)]
      refine ⟨?_, ?_, ?_, ?_, ?_, ?_, ?_, ?_, ?_, ?_, ?_, ?_, ?_⟩ <;> simp
    · intro h0
      have h0' : 0 < (rows.foldl sBatStep {}).at_bats := h0
      simp only [if_pos h0']
    · intro h0
      have h0' : 0 < (rows.foldl sBatStep {}).plate_appearances := h0
      simp only [if_pos h0']
    · intro h0
      have h0' : 0 < (rows.foldl sBatStep {}).at_bats := h0
      simp only [if_pos h0']
    · rfl
  · intro rows t h
    rw [scraperPitchingTotals_eq] at h
    obtain rfl := (Except.ok.inj h).symm
    refine ⟨?_, ?_⟩
    · rw [sPitFold rows ({} : SPitAcc)]
      refine ⟨?_, ?_, ?_, ?_, ?_, ?_, ?_, ?_, ?_, ?_, ?_, ?_, ?_, ?_⟩ <;> simp
    · intro h0
      have h0' : 0 < (rows.foldl sPitStep {}).innings_pitched := h0
      simp [if_pos h0']

/-- Inserting by key is a permutation of consing. -/
theorem insertByKey_perm (x : StatRow) : ∀ l : List StatRow, List.Perm (insertByKey x l) (x :: l) := by
  intro l
  induction l with
  | nil => simp [insertByKey]
  | cons y ys ih =>
    simp only [insertByKey]
    by_cases h : seasonKey y < seasonKey x
    · rw [if_pos h]
      exact (ih.cons y).trans (List.Perm.swap x y ys)
    · rw [if_neg h]

/-- The stable sort is a permutation of its input. -/
theorem sortBySeason_perm : ∀ l : List StatRow, List.Perm (sortBySeason l) l := by
  intro l
  induction l with
  | nil => simp [sortBySeason]
  | cons x xs ih =>
    simp only [sortBySeason]
    exact (insertByKey_perm x (sortBySeason xs)).trans (ih.cons x)

/-- Swapping two adjacent elements of which at most one satisfies the
predicate does not change the filtered list. -/
theorem filter_swap_adjacent {α : Type} (p : α → Bool) (a b : α) (l : List α)
    (h : ¬(p a = true ∧ p b = true)) :
    (a :: b :: l).filter p = (b :: a :: l).filter p := by
  by_cases ha : p a = true <;> by_cases hb : p b = true
  · exact absurd ⟨ha, hb⟩ h
  · simp [List.filter_cons, ha, hb]
  · simp [List.filter_cons, ha, hb]
  · simp [List.filter_cons, ha, hb]

/-- Filtering on one season value commutes with key insertion: the inserted
element may jump only over rows with a strictly smaller key, which cannot
carry the same season. -/
theorem filter_insertByKey (y : ℤ) (x : StatRow) :
    ∀ l : List StatRow,
      (insertByKey x l).filter (fun r => r.season == some y)
        = (x :: l).filter (fun r => r.season == some y) := by
  intro l
  induction l with
  | nil => simp [insertByKey]
  | cons z zs ih =>
    simp only [insertByKey]
    by_cases h : seasonKey z < seasonKey x
    · rw [if_pos h]
      have hswap : ¬((fun r => r.season == some y) z = true ∧
          (fun r => r.season == some y) x = true) := by
        rintro ⟨hz, hx⟩
        simp only [beq_iff_eq] at hz hx
        have : seasonKey z = seasonKey x := by simp [seasonKey, hz, hx]
        omega
      calc (z :: insertByKey x zs).filter (fun r => r.season == some y)
          = (z :: x :: zs).filter (fun r => r.season == some y) := by
            by_cases hz : (z.season == some y) = true <;>
              simp [List.filter_cons, hz, ih]
        _ = (x :: z :: zs).filter (fun r => r.season == some y) :=
            (filter_swap_adjacent _ z x zs hswap)
    · rw [if_neg h]

/-- Stability: filtering the sorted rows on one season value gives exactly
the filtered input, in input order. -/
theorem filter_sortBySeason (y : ℤ) :
    ∀ l : List StatRow,
      (sortBySeason l).filter (fun r => r.season == some y)
        = l.filter (fun r => r.season == some y) := by
  intro l
  induction l with
  | nil => rfl
  | cons x xs ih =>
    simp only [sortBySeason]
    rw [filter_insertByKey]
    by_cases hx : (x.season == some y) = true <;> simp [List.filter_cons, hx, ih]

/-- Python `find first` as head of filter. -/
theorem find?_eq_head_filter {α : Type} (p : α → Bool) :
    ∀ l : List α, l.find? p = (l.filter p).head? := by
  intro l
  induction l with
  | nil => rfl
  | cons x xs ih =>
    by_cases hx : p x = true
    · rw [List.find?_cons_of_pos _ hx, List.filter_cons_of_pos hx]
      rfl
    · have hx2 : p x = false := by simpa using hx
      rw [List.find?_cons_of_neg _ (by simp [hx2]), List.filter_cons_of_neg (by simp [hx2]), ih]

/-- The de-duplication loop keeps, for each unseen season value, exactly the
first row carrying it. -/
theorem filter_dedupeBySeason (y : ℤ) :
    ∀ (l : List StatRow) (seen : List (Option ℤ)),
      (dedupeBySeason l seen).filter (fun r => r.season == some y)
        = if (some y) ∈ seen then []
          else (l.find? (fun r => r.season == some y)).toList := by
  intro l
  induction l with
  | nil => intro seen; by_cases h : (some y) ∈ seen <;> simp [dedupeBySeason, h]
  | cons r rs ih =>
    intro seen
    simp only [dedupeBySeason]
    by_cases hr : r.season ∈ seen
    · rw [if_pos hr, ih seen]
      by_cases hy : (some y) ∈ seen
      · rw [if_pos hy, if_pos hy]
      · rw [if_neg hy, if_neg hy]
        have hne : ¬(r.season == some y) = true := by
          simp only [beq_iff_eq]
          intro he
          rw [he] at hr
          exact hy hr
        simp [List.find?_cons, hne]
    · rw [if_neg hr]
      by_cases hrs : (r.season == some y) = true
      · have hy : r.season = some y := by simpa using hrs
        rw [if_neg (by rw [← hy]; exact hr)]
        rw [List.filter_cons, if_pos hrs, ih (r.season :: seen)]
        rw [if_pos (by rw [hy]; exact List.mem_cons_self _ _)]
        simp [List.find?_cons, hrs]
      · rw [List.filter_cons, if_neg hrs, ih (r.season :: seen)]
        by_cases hy : (some y) ∈ seen
        · rw [if_pos (List.mem_cons_of_mem _ hy), if_pos hy]
        · have hyne : (some y) ∉ r.season :: seen := by
            intro hc
            rcases List.mem_cons.mp hc with hc1 | hc2
            · exact hrs (by simp [hc1.symm])
            · exact hy hc2
          rw [if_neg hyne, if_neg hy]
          simp [List.find?_cons, hrs]

/-- The de-duplicated rows have pairwise distinct season values, none of
them in the seen-set. -/
theorem dedupeBySeason_nodup :
    ∀ (l : List StatRow) (seen : List (Option ℤ)),
      (((dedupeBySeason l seen).map (fun r => r.season)).Nodup) ∧
      (∀ k ∈ (dedupeBySeason l seen).map (fun r => r.season), k ∉ seen) := by
  intro l
  induction l with
  | nil => intro seen; simp [dedupeBySeason]
  | cons r rs ih =>
    intro seen
    simp only [dedupeBySeason]
    by_cases hr : r.season ∈ seen
    · rw [if_pos hr]
      exact ih seen
    · rw [if_neg hr]
      obtain ⟨ihn, ihs⟩ := ih (r.season :: seen)
      refine ⟨?_, ?_⟩
      · simp only [List.map_cons, List.nodup_cons]
        refine ⟨?_, ihn⟩
        intro hc
        exact (ihs r.season hc) (List.mem_cons_self _ _)
      · intro k hk
        rw [List.map_cons] at hk
        rcases List.mem_cons.mp hk with hk1 | hk2
        · intro hc
          rw [hk1] at hc
          exact hr hc
        · intro hc
          exact (ihs k hk2) (List.mem_cons_of_mem _ hc)

/-- Season values survive de-duplication iff present and unseen. -/
theorem mem_dedupeBySeason :
    ∀ (l : List StatRow) (seen : List (Option ℤ)) (k : Option ℤ),
      k ∈ (dedupeBySeason l seen).map (fun r => r.season) ↔
        (k ∈ l.map (fun r => r.season) ∧ k ∉ seen) := by
  intro l
  induction l with
  | nil => intro seen k; simp [dedupeBySeason]
  | cons r rs ih =>
    intro seen k
    simp only [dedupeBySeason]
    by_cases hr : r.season ∈ seen
    · rw [if_pos hr, ih seen k]
      simp only [List.map_cons, List.mem_cons]
      constructor
      · rintro ⟨hk, hks⟩
        exact ⟨Or.inr hk, hks⟩
      · rintro ⟨hk | hk, hks⟩
        · exact absurd (show k ∈ seen by rw [hk]; exact hr) hks
        · exact ⟨hk, hks⟩
    · rw [if_neg hr]
      simp only [List.map_cons, List.mem_cons, ih (r.season :: seen) k]
      constructor
      · rintro (hk | ⟨hm, hs⟩)
        · subst hk
          exact ⟨Or.inl rfl, hr⟩
        · exact ⟨Or.inr hm, fun hc => hs (Or.inr hc)⟩
      · rintro ⟨hk | hk, hks⟩
        · exact Or.inl hk
        · by_cases he : k = r.season
          · exact Or.inl he
          · refine Or.inr ⟨hk, ?_⟩
            intro hc
            rcases hc with hc1 | hc2
            · exact he hc1
            · exact hks hc2

/-- Specification of the career season merge (lines 104-113 of
`composite_provider.py`): the merged rows have pairwise-distinct season
values, exactly the season values of the two inputs combined, and for a
season year present among the historical rows the single surviving row with
that year is the first matching historical row. -/
theorem mergeSeasonRows_spec (H M : List StatRow) :
    (((mergeSeasonRows H M).map (fun r => r.season)).Nodup) ∧
    (∀ k, k ∈ (mergeSeasonRows H M).map (fun r => r.season) ↔
      k ∈ (H ++ M).map (fun r => r.season)) ∧
    (∀ y : ℤ, (∃ r ∈ H, r.season = some y) →
      ∃ r ∈ H, r.season = some y ∧
        (mergeSeasonRows H M).filter (fun r2 => r2.season == some y) = [r]) := by
  refine ⟨(dedupeBySeason_nodup _ []).1, ?_, ?_⟩
  · intro k
    simp only [mergeSeasonRows]
    rw [mem_dedupeBySeason]
    constructor
    · rintro ⟨hk, -⟩
      have hp := (sortBySeason_perm (H ++ M)).map (fun r => r.season)
      exact hp.mem_iff.mp hk
    · intro hk
      have hp := (sortBySeason_perm (H ++ M)).map (fun r => r.season)
      exact ⟨hp.mem_iff.mpr hk, by simp⟩
  · intro y hy
    have hfd := filter_dedupeBySeason y (sortBySeason (H ++ M)) []
    rw [if_neg (by simp)] at hfd
    have hfs : (sortBySeason (H ++ M)).find? (fun r => r.season == some y)
        = ((H ++ M).filter (fun r => r.season == some y)).head? := by
      rw [find?_eq_head_filter, filter_sortBySeason]
    obtain ⟨r0, hr0H, hr0y⟩ := hy
    have hne : (H.filter (fun r => r.season == some y)) ≠ [] := by
      intro hc
      have : r0 ∈ H.filter (fun r => r.season == some y) :=
        List.mem_filter.mpr ⟨hr0H, by simp [hr0y]⟩
      rw [hc] at this
      exact List.not_mem_nil r0 this
    obtain ⟨r1, rs1, hr1⟩ := List.exists_cons_of_ne_nil hne
    have hr1H : r1 ∈ H.filter (fun r => r.season == some y) := by
      rw [hr1]; exact List.mem_cons_self _ _
    refine ⟨r1, (List.mem_filter.mp hr1H).1, by
      have := (List.mem_filter.mp hr1H).2
      simpa using this, ?_⟩
    unfold mergeSeasonRows
    rw [hfd, hfs, List.filter_append, hr1]
    simp

/-- C4, counterexample: with the claim's own example data — historical
seasons 2001-2003 and scraper seasons 2003-2004 — the career call never
reaches the merge: the historical last season (2003) is below cutoff-1
(2004), so the scraper is not even queried and the returned season list is
the historical one, without 2004; the example's promised merged list (each
of 2001-2004 exactly once) is not produced. -/
theorem claim4_counterexample :
    (compositeGetPlayerStats envC4 "p" none "batting").2
        = [ProvCall.hist "p" none "batting"] ∧
    (compositeGetPlayerStats envC4 "p" none "batting").1.toOption
        = some { stats := histRows, stats_type := some "batting" } ∧
    some (2004 : ℤ) ∈ (modernRows.map (fun r => r.season)) ∧
    some (2004 : ℤ) ∉ (histRows.map (fun r => r.season)) := by
  decide

/-- C4 (amended): whenever the composite career request actually merges both
providers' season rows — which requires the historical result to be
error-free and non-empty with its last season at or past cutoff-1 (so the
claim's 2001-2003 example never merges), and the scraper result error-free
and non-empty — the response's season list is the sorted de-duplicated
union: every season value occurs exactly once, the season values are
exactly those of the two contributions, and for a year present among the
historical rows the single surviving row with that year is the historical
one (its first occurrence). -/
theorem claim4_career_merge (env : CompositeEnv) (pid stype : String)
    (h m : StatsResp)
    (h1 : env.histGet pid none stype = .ok h) (h2 : h.error = none)
    (h3 : h.stats ≠ []) (h4 : 2005 - 1 ≤ lastYearOf h.stats)
    (h5 : env.scrapGet pid none stype = .ok m) (h6 : m.error = none)
    (h7 : m.stats ≠ []) :
    ∃ resp, (compositeGetPlayerStats env pid none stype).1 = .ok resp ∧
      resp.stats = mergeSeasonRows h.stats m.stats ∧
      ((resp.stats.map (fun r => r.season)).Nodup) ∧
      (∀ k, k ∈ (h.stats ++ m.stats).map (fun r => r.season) ↔
        k ∈ resp.stats.map (fun r => r.season)) ∧
      (∀ y : ℤ, (∃ r ∈ h.stats, r.season = some y) →
        ∃ r ∈ h.stats, r.season = some y ∧
          resp.stats.filter (fun r2 => r2.season == some y) = [r]) := by
  obtain ⟨hn, hm2, hh⟩ := mergeSeasonRows_spec h.stats m.stats
  have hprops : ∀ resp : StatsResp, resp.stats = mergeSeasonRows h.stats m.stats →
      ((resp.stats.map (fun r => r.season)).Nodup) ∧
      (∀ k, k ∈ (h.stats ++ m.stats).map (fun r => r.season) ↔
        k ∈ resp.stats.map (fun r => r.season)) ∧
      (∀ y : ℤ, (∃ r ∈ h.stats, r.season = some y) →
        ∃ r ∈ h.stats, r.season = some y ∧
          resp.stats.filter (fun r2 => r2.season == some y) = [r]) := by
    intro resp hr
    rw [hr]
    exact ⟨hn, fun k => (hm2 k).symm, hh⟩
  simp only [compositeGetPlayerStats, compositeCareerPath]
  rw [h1]
  dsimp only
  rw [if_pos h2, if_pos h3, if_pos h4, h5]
  dsimp only
  rw [if_pos ⟨h6, h7⟩]
  by_cases ht1 : h.stats_type = some "batting"
  · rw [if_pos ht1, calcBattingTotals_eq]
    exact ⟨_, rfl, rfl, hprops _ rfl⟩
  · rw [if_neg ht1]
    by_cases ht2 : h.stats_type = some "pitching"
    · rw [if_pos ht2, calcPitchingTotals_eq]
      exact ⟨_, rfl, rfl, hprops _ rfl⟩
    · rw [if_neg ht2]
      exact ⟨_, rfl, rfl, hprops _ rfl⟩

/-- C4, witness: the merge theorem applied to historical seasons 2002-2004
and scraper seasons 2004-2005, where 2004 survives as the historical
row. -/
theorem claim4_witness :
    ∃ resp, (compositeGetPlayerStats envC4w "p" none "batting").1 = .ok resp ∧
      resp.stats = mergeSeasonRows histRowsW modernRowsW ∧
      ((resp.stats.map (fun r => r.season)).Nodup) ∧
      (∃ r ∈ histRowsW, r.season = some 2004 ∧
        resp.stats.filter (fun r2 => r2.season == some (2004 : ℤ)) = [r]) := by
  obtain ⟨resp, ha, hb, hc, -, he⟩ :=
    claim4_career_merge envC4w "p" "batting"
      { stats := histRowsW, stats_type := some "batting" }
      { stats := modernRowsW, stats_type := some "batting" }
      rfl rfl (by decide) (by decide) rfl rfl (by decide)
  exact ⟨resp, ha, hb, hc,
    he 2004 ⟨{ season := some 2004, hits := some 104 }, by decide, rfl⟩⟩

/-- C5, witness: the recomputation theorem applied to two concrete batting
season rows (summed hits 5, summed at-bats 10). -/
theorem claim5_witness :
    ∃ t, calcBattingTotals rows5 = .ok t ∧ t.hits = 5 ∧ t.at_bats = 10 ∧
      t.batting_average = pyRound ((t.hits : ℚ) / (t.at_bats : ℚ)) 3 := by
  obtain ⟨hc, hr⟩ := claim5_career_totals.1 rows5 _ (calcBattingTotals_eq rows5)
  exact ⟨_, calcBattingTotals_eq rows5, by decide, by decide, hr (by decide)⟩

/-- C10, witness: the totality theorem applied to the empty row list and to
a one-row list with zero denominators. -/
theorem claim10_witness :
    (∃ t, calcBattingTotals [] = .ok t ∧ t.batting_average = 0) ∧
    (∃ t, calcPitchingTotals [({} : StatRow)] = .ok t ∧ t.era = 0 ∧ t.whip = 0) ∧
    (∃ t, scraperCalcCareerTotals [({} : StatRow)] "batting" = .ok (.battingT t)) := by
  refine ⟨?_, ?_, ?_⟩
  · obtain ⟨t, h1, h2⟩ := claim10_no_div_by_zero.1 []
    exact ⟨t, h1, h2 (by simp [sumField])⟩
  · obtain ⟨t, h1, h2⟩ := claim10_no_div_by_zero.2.1 [({} : StatRow)]
    exact ⟨t, h1, h2 (by norm_num [sumFieldQ])⟩
  · obtain ⟨t, h1, -, -⟩ := claim10_no_div_by_zero.2.2.2.1 [({} : StatRow)] (by simp)
    exact ⟨t, h1⟩

/-- Rounding a value that is already an integer multiple of one-thousandth
to three decimal places leaves it unchanged. -/
theorem pyRound_thousandth (k : ℤ) : pyRound ((k : ℚ) / 1000) 3 = (k : ℚ) / 1000 := by
  unfold pyRound roundHalfEven
  have h1 : ((k : ℚ) / 1000) * 10 ^ 3 = (k : ℚ) := by
    rw [div_mul_eq_mul_div]
    norm_num
  rw [h1]
  simp only [Int.floor_intCast]
  rw [if_pos (by norm_num : (k : ℚ) - (k : ℤ) < 1 / 2)]
  norm_num

/-- C1, counterexample: the Baseball-Reference extractor copies the `OPS`
cell verbatim, so a source row whose OPS column disagrees with OBP + SLG is
emitted unchanged: this row has 400 at-bats and OPS 0.8 although
round(OBP + SLG, 3) = 0.7. -/
theorem claim1_counterexample :
    (brRowToStats brRowBad).at_bats ≠ 0 ∧
    (brRowToStats brRowBad).ops ≠
      pyRound ((brRowToStats brRowBad).on_base_percentage
        + (brRowToStats brRowBad).slugging_percentage) 3 := by
  constructor
  · norm_num [brRowToStats, brRowBad, safeInt, pyTrunc]
  · have h1 : (brRowToStats brRowBad).ops = 4 / 5 := by
      norm_num [brRowToStats, brRowBad, safeFloat]
    have h2 : (brRowToStats brRowBad).on_base_percentage
        + (brRowToStats brRowBad).slugging_percentage = 7 / 10 := by
      norm_num [brRowToStats, brRowBad, safeFloat]
    rw [h1, h2]
    have h3 : pyRound (7 / 10 : ℚ) 3 = 7 / 10 := by
      have h4 := pyRound_thousandth 700
      norm_num at h4
      exact h4
    rw [h3]
    norm_num

/-- C1 (amended): batting rate fields are taken from the source row rather
than recomputed from counting fields. The NPB-official extractor emits
`ops` (when present, i.e. when BA > 0 or OBP > 0) as exactly the sum of the
emitted OBP and SLG — unrounded, so `OPS = round(OBP + SLG, 3)` does hold
for those rows whenever OBP and SLG are three-decimal values; the
Baseball-Reference extractor copies the `OPS` cell verbatim — changing the
OBP and SLG cells does not change the emitted OPS — so the claimed identity
fails on inconsistent source rows. -/
theorem claim1_ops_provenance :
    (∀ (pid pname : String) (season : ℤ) (team : String) (cells : List (Option ℚ)) (v : ℚ),
        (npbRowToStats pid pname season team cells).ops = some v →
        v = (npbRowToStats pid pname season team cells).on_base_percentage
          + (npbRowToStats pid pname season team cells).slugging_percentage) ∧
    (∀ (pid pname : String) (season : ℤ) (team : String) (cells : List (Option ℚ))
        (v : ℚ) (k1 k2 : ℤ),
        (npbRowToStats pid pname season team cells).ops = some v →
        (npbRowToStats pid pname season team cells).on_base_percentage = (k1 : ℚ) / 1000 →
        (npbRowToStats pid pname season team cells).slugging_percentage = (k2 : ℚ) / 1000 →
        v = pyRound v 3) ∧
    (∀ (row : BRRow) (q1 q2 : Option ℚ),
        (brRowToStats { row with obp := q1, slg := q2 }).ops = (brRowToStats row).ops ∧
        (brRowToStats row).ops = safeFloat row.ops 0) := by
  refine ⟨?_, ?_, ?_⟩
  · intro pid pname season team cells v h
    simp only [npbRowToStats] at h ⊢
    split_ifs at h with hc
    exact (Option.some.inj h).symm
  · intro pid pname season team cells v k1 k2 h hobp hslg
    have hv : v = (npbRowToStats pid pname season team cells).on_base_percentage
        + (npbRowToStats pid pname season team cells).slugging_percentage := by
      simp only [npbRowToStats] at h ⊢
      split_ifs at h with hc
      exact (Option.some.inj h).symm
    have hk : v = ((k1 + k2 : ℤ) : ℚ) / 1000 := by
      rw [hv, hobp, hslg]
      push_cast
      ring
    rw [hk, pyRound_thousandth]
  · intro row q1 q2
    exact ⟨rfl, rfl⟩

/-- C1, witness: the provenance theorem applied to a concrete NPB-official
row (BA 0.300, SLG 0.400, OBP 0.300) and a concrete Baseball-Reference
row. -/
theorem claim1_witness :
    (npbRowToStats "p" "n" 2024 "T" cellsW).ops
      = some ((npbRowToStats "p" "n" 2024 "T" cellsW).on_base_percentage
          + (npbRowToStats "p" "n" 2024 "T" cellsW).slugging_percentage) ∧
    (brRowToStats brRowBad).ops = safeFloat brRowBad.ops 0 := by
  constructor
  · have hops : (npbRowToStats "p" "n" 2024 "T" cellsW).ops = some (7 / 10) := by
      have hba : safeFloat (cellQ cellsW 21) 0 = 3 / 10 := rfl
      have hslg2 : safeFloat (cellQ cellsW 22) 0 = 2 / 5 := rfl
      have hobp2 : safeFloat (cellQ cellsW 23) 0 = 3 / 10 := rfl
      simp only [npbRowToStats, hba, hslg2, hobp2]
      rw [if_pos (by norm_num : (0 : ℚ) < 3 / 10 ∨ (0 : ℚ) < 3 / 10)]
      norm_num
    rw [hops]
    exact congrArg some (claim1_ops_provenance.1 "p" "n" 2024 "T" cellsW (7 / 10) hops)
  · exact (claim1_ops_provenance.2.2 brRowBad none none).2

/-- Projecting the probed pairs back onto the candidates with a positive
flag is filtering by the probe. -/
theorem pairFilterPos {α : Type} (f : α → Bool) :
    ∀ l : List α,
      (((l.map (fun p => (p, f p))).filter (fun pr => pr.2)).map (fun pr => pr.1))
        = l.filter f := by
  intro l
  induction l with
  | nil => rfl
  | cons x xs ih =>
    simp only [List.map_cons, List.filter_cons]
    cases hg : f x with
    | true => simp [hg, ih, List.filter_cons]
    | false => simp [hg, ih, List.filter_cons]

/-- Projecting the probed pairs with a negative flag is filtering by the
negated probe. -/
theorem pairFilterNeg {α : Type} (f : α → Bool) :
    ∀ l : List α,
      (((l.map (fun p => (p, f p))).filter (fun pr => !pr.2)).map (fun pr => pr.1))
        = l.filter (fun x => !(f x)) := by
  intro l
  induction l with
  | nil => rfl
  | cons x xs ih =>
    simp only [List.map_cons, List.filter_cons]
    cases hg : f x with
    | true => simp [hg, ih, List.filter_cons]
    | false => simp [hg, ih, List.filter_cons]

/-- C8, counterexample: two same-named candidates, neither of which has
recorded stats, but one matches the hard-coded Alex Cabrera MLB pattern:
instead of returning the full original candidate list with a note, the
workflow probes the synthesized register id `br_cabrer001ale`, finds stats,
and auto-selects that synthesized candidate. -/
theorem claim8_counterexample :
    hasNPBStats probeC8 cabA = false ∧
    hasNPBStats probeC8 cabB = false ∧
    smartSelect [cabA, cabB] probeC8 ≠ .noneWithStats [cabA, cabB] ∧
    smartSelect [cabA, cabB] probeC8 = .autoSelected (mkRegisterCabrera cabA) := by
  decide

/-- C8 (amended): for a multi-candidate search outcome, each candidate is
probed (batting, then pitching; an error counts as no stats); exactly one
candidate with stats is returned alone without the ambiguity flag; two or
more with stats are all returned flagged as still ambiguous together with
the count of stat-less candidates; and if none has stats the full original
candidate list is returned with a note — unless a candidate triggers the
hard-coded Alex Cabrera MLB mapping and its synthesized register candidate
has stats, in which case the synthesized candidate is selected instead. -/
theorem claim8_decision_policy (players : List NPBPlayer)
    (probe : String → String → Except Unit (Option NPBPlayerStats))
    (h2 : 2 ≤ players.length) :
    (∀ p, players.filter (hasNPBStats probe) = [p] →
      smartSelect players probe = .autoSelected p) ∧
    (2 ≤ (players.filter (hasNPBStats probe)).length →
      smartSelect players probe =
        .ambiguousWithStats (players.filter (hasNPBStats probe))
          ((players.filter (fun q => !(hasNPBStats probe q))).length)) ∧
    (players.filter (hasNPBStats probe) = [] →
      (((players.filter (fun q => !(hasNPBStats probe q))).filterMap
          (fun p => if isCabreraMlb p then some (mkRegisterCabrera p) else none)).filter
        (hasNPBStats probe)) = [] →
      smartSelect players probe = .noneWithStats players) := by
  obtain ⟨a, t1, rfl⟩ : ∃ a t1, players = a :: t1 := by
    cases players with
    | nil => simp at h2
    | cons a t => exact ⟨a, t, rfl⟩
  obtain ⟨b, t2, rfl⟩ : ∃ b t2, t1 = b :: t2 := by
    cases t1 with
    | nil => simp at h2
    | cons b t => exact ⟨b, t, rfl⟩
  refine ⟨?_, ?_, ?_⟩
  · intro p hp
    simp only [smartSelect]
    rw [pairFilterPos, hp]
    simp
  · intro hlen
    simp only [smartSelect]
    rw [pairFilterPos, pairFilterNeg]
    have hne : (a :: b :: t2).filter (hasNPBStats probe) ≠ [] := by
      intro hc
      rw [hc] at hlen
      simp at hlen
    rw [if_neg hne]
    obtain ⟨x, xs, hx⟩ := List.exists_cons_of_ne_nil hne
    cases xs with
    | nil =>
      rw [hx] at hlen
      simp at hlen
    | cons y ys =>
      rw [hx]
  · intro h0 hsynth
    simp only [smartSelect]
    rw [pairFilterPos, pairFilterNeg, h0, if_pos rfl, List.nil_append, hsynth]

/-- C8, witness: the decision-policy theorem applied to two concrete
candidates under three oracles — one candidate with stats (auto-selected),
both with stats (flagged ambiguous), none with stats and no Cabrera
trigger (full list with note). -/
theorem claim8_witness :
    smartSelect [pW1, pW2] probeOne = .autoSelected pW1 ∧
    smartSelect [pW1, pW2] probeBoth = .ambiguousWithStats [pW1, pW2] 0 ∧
    smartSelect [pW1, pW2] probeNone = .noneWithStats [pW1, pW2] := by
  refine ⟨?_, ?_, ?_⟩
  · exact (claim8_decision_policy [pW1, pW2] probeOne (by decide)).1 pW1 (by decide)
  · have h := (claim8_decision_policy [pW1, pW2] probeBoth (by decide)).2.1 (by decide)
    rw [h]
    decide
  · exact (claim8_decision_policy [pW1, pW2] probeNone (by decide)).2.2 (by decide) (by decide)

/-- Lowercasing lands outside the uppercase range. -/
theorem pyToLower_not_upper (c : Nat) : isUpperCode (pyToLower c) = false := by
  unfold pyToLower isUpperCode
  split_ifs with h
  · simp only [Bool.and_eq_false_iff, decide_eq_false_iff_not]
    omega
  · simp only [Bool.and_eq_false_iff, decide_eq_false_iff_not]
    omega

/-- Lowercasing a string with no uppercase characters is the identity. -/
theorem map_pyToLower_id : ∀ l : List Nat, (∀ c ∈ l, isUpperCode c = false) →
    l.map pyToLower = l := by
  intro l
  induction l with
  | nil => intro; rfl
  | cons c cs ih =>
    intro h
    have hc : pyToLower c = c := by
      have h2 := h c (List.mem_cons_self _ _)
      unfold isUpperCode at h2
      unfold pyToLower
      rw [if_neg]
      intro hcon
      simp only [Bool.and_eq_false_iff, decide_eq_false_iff_not] at h2
      rcases h2 with h2 | h2 <;> omega
    simp only [List.map_cons, hc, ih (fun x hx => h x (List.mem_cons_of_mem _ hx))]

/-- Dropping a whitespace prefix from a string whose head is not whitespace
is the identity. -/
theorem dropWhile_id_of_head : ∀ l : List Nat,
    (∀ c, l.head? = some c → isWS c = false) → l.dropWhile isWS = l := by
  intro l h
  cases l with
  | nil => rfl
  | cons c cs =>
    rw [List.dropWhile_cons, if_neg]
    simp [h c rfl]

/-- Stripping a string with no edge whitespace is the identity. -/
theorem stripWS_id : ∀ l : List Nat, noEdgeWS l = true → stripWS l = l := by
  intro l h
  unfold noEdgeWS at h
  rw [Bool.and_eq_true] at h
  obtain ⟨h1, h2⟩ := h
  unfold stripWS
  rw [dropWhile_id_of_head l (by
    intro c hc
    rw [hc] at h1
    simpa using h1)]
  rw [dropWhile_id_of_head l.reverse (by
    intro c hc
    rw [List.head?_reverse] at hc
    rw [hc] at h2
    simpa using h2)]
  exact List.reverse_reverse l

/-- Tail of an adjacent-whitespace-free string. -/
theorem noAdjWS_tail {c : Nat} {cs : List Nat} (h : noAdjWS (c :: cs) = true) :
    noAdjWS cs = true := by
  cases cs with
  | nil => rfl
  | cons d ds =>
    unfold noAdjWS at h
    exact (Bool.and_eq_true_iff.mp h).2

/-- Head pair of an adjacent-whitespace-free string. -/
theorem noAdjWS_pair {c d : Nat} {ds : List Nat} (h : noAdjWS (c :: d :: ds) = true) :
    (isWS c && isWS d) = false := by
  unfold noAdjWS at h
  have h2 := (Bool.and_eq_true_iff.mp h).1
  cases hcd : (isWS c && isWS d) with
  | false => rfl
  | true => rw [hcd] at h2; exact absurd h2 (by simp)

/-- Consing a character that cannot pair with the head preserves
adjacent-whitespace freedom. -/
theorem noAdjWS_cons {c : Nat} {R : List Nat} (h1 : noAdjWS R = true)
    (h2 : ∀ x, R.head? = some x → (isWS c && isWS x) = false) :
    noAdjWS (c :: R) = true := by
  cases R with
  | nil => rfl
  | cons d ds =>
    unfold noAdjWS
    rw [h2 d rfl]
    simp [h1]

/-- Collapsing whitespace runs in a string whose whitespace is already
single plain spaces is the identity (in both flag states when the head is
not whitespace). -/
theorem collapseAux_id : ∀ l : List Nat, (∀ c ∈ l, isWS c = true → c = 32) →
    noAdjWS l = true →
    (collapseWSAux false l = l ∧
      ((∀ c, l.head? = some c → isWS c = false) → collapseWSAux true l = l)) := by
  intro l
  induction l with
  | nil => intro _ _; exact ⟨rfl, fun _ => rfl⟩
  | cons c cs ih =>
    intro h32 hadj
    have hcs32 : ∀ x ∈ cs, isWS x = true → x = 32 :=
      fun x hx => h32 x (List.mem_cons_of_mem _ hx)
    obtain ⟨ih1, ih2⟩ := ih hcs32 (noAdjWS_tail hadj)
    constructor
    · by_cases hws : isWS c = true
      · have hc32 : c = 32 := h32 c (List.mem_cons_self _ _) hws
        have hhead : ∀ x, cs.head? = some x → isWS x = false := by
          intro x hx
          cases cs with
          | nil => simp at hx
          | cons d ds =>
            have hp := noAdjWS_pair hadj
            rw [hws] at hp
            simp only [Bool.true_and] at hp
            have hxd : d = x := by simpa using hx
            rw [← hxd]
            exact hp
        simp only [collapseWSAux, hws, if_true, Bool.false_eq_true, if_false]
        rw [ih2 hhead, hc32]
      · have hws2 : isWS c = false := by simpa using hws
        simp only [collapseWSAux, hws2, Bool.false_eq_true, if_false, ih1]
    · intro hhead
      have hcws : isWS c = false := hhead c rfl
      simp only [collapseWSAux, hcws, Bool.false_eq_true, if_false, ih1]

/-- Collapse identity on the normalized form. -/
theorem collapseWS_id (l : List Nat) (h32 : ∀ c ∈ l, isWS c = true → c = 32)
    (hadj : noAdjWS l = true) : collapseWS l = l :=
  (collapseAux_id l h32 hadj).1

/-- A fold of conditional replacements over a table none of whose keys
occurs in the string is the identity. -/
theorem foldVariants_id : ∀ (tbl : List (List Nat × List Nat)) (l : List Nat),
    (∀ pr ∈ tbl, containsSeq pr.1 l = false) →
    tbl.foldl (fun acc pr => if containsSeq pr.1 acc then replaceList pr.1 pr.2 acc else acc) l
      = l := by
  intro tbl
  induction tbl with
  | nil => intro l _; rfl
  | cons pr tbl ih =>
    intro l h
    simp only [List.foldl_cons]
    rw [if_neg (by simp [h pr (List.mem_cons_self _ _)])]
    exact ih l (fun q hq => h q (List.mem_cons_of_mem _ hq))

/-- The romanization loop is the identity when no variant key occurs. -/
theorem applyVariants_id (l : List Nat) (h : noVariantKey l = true) :
    applyVariants l = l := by
  unfold applyVariants
  apply foldVariants_id
  intro pr hpr
  unfold noVariantKey at h
  have h2 := List.all_eq_true.mp h pr hpr
  simpa using h2

/-- Characters of the stripped string come from the input. -/
theorem mem_stripWS {c : Nat} {l : List Nat} (h : c ∈ stripWS l) : c ∈ l := by
  unfold stripWS at h
  have h1 := List.mem_reverse.mp h
  have h2 := (List.dropWhile_sublist isWS).mem h1
  have h3 := List.mem_reverse.mp h2
  exact (List.dropWhile_sublist isWS).mem h3

/-- Characters of the collapsed string are non-whitespace input characters
or the plain space. -/
theorem mem_collapseAux : ∀ (l : List Nat) (b : Bool) (c : Nat),
    c ∈ collapseWSAux b l → (c ∈ l ∧ isWS c = false) ∨ c = 32 := by
  intro l
  induction l with
  | nil =>
    intro b c hc
    simp [collapseWSAux] at hc
  | cons x xs ih =>
    intro b c hc
    by_cases hws : isWS x = true
    · cases b with
      | true =>
        simp only [collapseWSAux, hws, if_true] at hc
        rcases ih true c hc with ⟨hm, hw⟩ | h32
        · exact Or.inl ⟨List.mem_cons_of_mem _ hm, hw⟩
        · exact Or.inr h32
      | false =>
        simp only [collapseWSAux, hws, if_true, Bool.false_eq_true, if_false] at hc
        rcases List.mem_cons.mp hc with h32 | hc2
        · exact Or.inr h32
        · rcases ih true c hc2 with ⟨hm, hw⟩ | h32
          · exact Or.inl ⟨List.mem_cons_of_mem _ hm, hw⟩
          · exact Or.inr h32
    · have hws2 : isWS x = false := by simpa using hws
      simp only [collapseWSAux, hws2, Bool.false_eq_true, if_false] at hc
      rcases List.mem_cons.mp hc with hcx | hc2
      · exact Or.inl ⟨by rw [hcx]; exact List.mem_cons_self _ _, by rw [hcx]; exact hws2⟩
      · rcases ih false c hc2 with ⟨hm, hw⟩ | h32
        · exact Or.inl ⟨List.mem_cons_of_mem _ hm, hw⟩
        · exact Or.inr h32

/-- After a whitespace character was emitted, the next emitted character is
not whitespace. -/
theorem collapseAux_true_head : ∀ (l : List Nat) (x : Nat),
    (collapseWSAux true l).head? = some x → isWS x = false := by
  intro l
  induction l with
  | nil =>
    intro x hx
    simp [collapseWSAux] at hx
  | cons c cs ih =>
    intro x hx
    by_cases hws : isWS c = true
    · simp only [collapseWSAux, hws, if_true] at hx
      exact ih x hx
    · have hws2 : isWS c = false := by simpa using hws
      simp only [collapseWSAux, hws2, Bool.false_eq_true, if_false, List.head?_cons] at hx
      have : c = x := by simpa using hx
      rw [← this]
      exact hws2

/-- The collapsed string never carries two adjacent whitespace
characters. -/
theorem collapseAux_noAdj : ∀ (l : List Nat) (b : Bool),
    noAdjWS (collapseWSAux b l) = true := by
  intro l
  induction l with
  | nil => intro b; rfl
  | cons c cs ih =>
    intro b
    by_cases hws : isWS c = true
    · cases b with
      | true => simpa only [collapseWSAux, hws, if_true] using ih true
      | false =>
        simp only [collapseWSAux, hws, if_true, Bool.false_eq_true, if_false]
        apply noAdjWS_cons (ih true)
        intro x hx
        rw [collapseAux_true_head cs x hx]
        simp
    · have hws2 : isWS c = false := by simpa using hws
      simp only [collapseWSAux, hws2, Bool.false_eq_true, if_false]
      apply noAdjWS_cons (ih false)
      intro x hx
      rw [hws2]
      simp

/-- Characters of the replaced string come from the input or the
replacement. -/
theorem mem_replaceFuel (pat rep : List Nat) : ∀ (f : Nat) (l : List Nat) (c : Nat),
    c ∈ replaceFuel pat rep f l → c ∈ l ∨ c ∈ rep := by
  intro f
  induction f with
  | zero =>
    intro l c hc
    cases l with
    | nil => simp [replaceFuel] at hc
    | cons x xs => exact Or.inl hc
  | succ f ih =>
    intro l c hc
    cases l with
    | nil => simp [replaceFuel] at hc
    | cons x xs =>
      by_cases hp : pat ≠ [] ∧ pat.isPrefixOf (x :: xs)
      · rw [show replaceFuel pat rep (f + 1) (x :: xs)
              = rep ++ replaceFuel pat rep f (List.drop pat.length (x :: xs)) by
            simp only [replaceFuel, if_pos hp]] at hc
        rcases List.mem_append.mp hc with hr | hl
        · exact Or.inr hr
        · rcases ih _ c hl with hd | hr
          · exact Or.inl (List.mem_of_mem_drop hd)
          · exact Or.inr hr
      · rw [show replaceFuel pat rep (f + 1) (x :: xs)
              = x :: replaceFuel pat rep f xs by
            simp only [replaceFuel, if_neg hp]] at hc
        rcases List.mem_cons.mp hc with hcx | hc2
        · exact Or.inl (by rw [hcx]; exact List.mem_cons_self _ _)
        · rcases ih xs c hc2 with hm | hr
          · exact Or.inl (List.mem_cons_of_mem _ hm)
          · exact Or.inr hr

/-- The head of the replaced string is a replacement character or the input
head. -/
theorem head_replaceFuel (pat rep : List Nat) (hrep : rep ≠ []) :
    ∀ (f : Nat) (l : List Nat) (x : Nat),
      (replaceFuel pat rep f l).head? = some x → x ∈ rep ∨ l.head? = some x := by
  intro f l x h
  cases f with
  | zero =>
    cases l with
    | nil => simp [replaceFuel] at h
    | cons c cs => exact Or.inr h
  | succ f =>
    cases l with
    | nil => simp [replaceFuel] at h
    | cons c cs =>
      by_cases hp : pat ≠ [] ∧ pat.isPrefixOf (c :: cs)
      · rw [show replaceFuel pat rep (f + 1) (c :: cs)
              = rep ++ replaceFuel pat rep f (List.drop pat.length (c :: cs)) by
            simp only [replaceFuel, if_pos hp]] at h
        cases hr : rep with
        | nil => exact absurd hr hrep
        | cons r rs =>
          rw [hr, List.cons_append, List.head?_cons] at h
          have : r = x := by simpa using h
          rw [← this]
          exact Or.inl (List.mem_cons_self _ _)
      · rw [show replaceFuel pat rep (f + 1) (c :: cs)
              = c :: replaceFuel pat rep f cs by
            simp only [replaceFuel, if_neg hp]] at h
        exact Or.inr (by simpa using h)

/-- Dropping a prefix preserves adjacent-whitespace freedom. -/
theorem noAdjWS_drop : ∀ (n : Nat) (l : List Nat), noAdjWS l = true →
    noAdjWS (l.drop n) = true := by
  intro n
  induction n with
  | zero => intro l h; simpa using h
  | succ n ih =>
    intro l h
    cases l with
    | nil => rfl
    | cons c cs =>
      rw [List.drop_succ_cons]
      exact ih cs (noAdjWS_tail h)

/-- Prepending whitespace-free characters preserves adjacent-whitespace
freedom. -/
theorem noAdjWS_append_nonws : ∀ (A : List Nat) {B : List Nat},
    (∀ c ∈ A, isWS c = false) → noAdjWS B = true → noAdjWS (A ++ B) = true := by
  intro A
  induction A with
  | nil => intro B _ hB; simpa using hB
  | cons a A' ih =>
    intro B hA hB
    rw [List.cons_append]
    apply noAdjWS_cons (ih (fun c hc => hA c (List.mem_cons_of_mem _ hc)) hB)
    intro x hx
    rw [hA a (List.mem_cons_self _ _)]
    simp

/-- Replacement with a non-empty whitespace-free replacement preserves
adjacent-whitespace freedom. -/
theorem noAdjWS_replaceFuel (pat rep : List Nat) (hrep : rep ≠ [])
    (hrepws : ∀ c ∈ rep, isWS c = false) :
    ∀ (f : Nat) (l : List Nat), noAdjWS l = true →
      noAdjWS (replaceFuel pat rep f l) = true := by
  intro f
  induction f with
  | zero =>
    intro l h
    cases l with
    | nil => rfl
    | cons c cs => exact h
  | succ f ih =>
    intro l h
    cases l with
    | nil => rfl
    | cons c cs =>
      by_cases hp : pat ≠ [] ∧ pat.isPrefixOf (c :: cs)
      · rw [show replaceFuel pat rep (f + 1) (c :: cs)
              = rep ++ replaceFuel pat rep f (List.drop pat.length (c :: cs)) by
            simp only [replaceFuel, if_pos hp]]
        exact noAdjWS_append_nonws rep hrepws (ih _ (noAdjWS_drop pat.length _ h))
      · rw [show replaceFuel pat rep (f + 1) (c :: cs)
              = c :: replaceFuel pat rep f cs by
            simp only [replaceFuel, if_neg hp]]
        apply noAdjWS_cons (ih cs (noAdjWS_tail h))
        intro x hx
        by_cases hcw : isWS c = true
        · rcases head_replaceFuel pat rep hrep f cs x hx with hr | hcs
          · rw [hrepws x hr]
            simp
          · cases cs with
            | nil => simp at hcs
            | cons d ds =>
              have hpair := noAdjWS_pair h
              rw [hcw] at hpair
              simp only [Bool.true_and] at hpair
              have hxd : d = x := by simpa using hcs
              rw [hcw, ← hxd, hpair]
              simp
        · have : isWS c = false := by simpa using hcw
          rw [this]
          simp

/-- Replacement by a table entry with a well-formed replacement preserves
the pipeline invariant. -/
theorem replaceList_goodState (pat rep : List Nat) (hrep : rep ≠ [])
    (hgood : ∀ c ∈ rep, goodRepChar c = true) {l : List Nat} (hl : GoodState l) :
    GoodState (replaceList pat rep l) := by
  obtain ⟨hchar, hadj⟩ := hl
  have hrepws : ∀ c ∈ rep, isWS c = false := by
    intro c hcr
    have h2 := hgood c hcr
    unfold goodRepChar at h2
    rcases Bool.and_eq_true_iff.mp h2 with ⟨h3, -⟩
    rcases Bool.and_eq_true_iff.mp h3 with ⟨h4, -⟩
    simpa using h4
  constructor
  · intro c hc
    rcases mem_replaceFuel pat rep l.length l c hc with h1 | h2
    · exact hchar c h1
    · have h3 := hgood c h2
      unfold goodRepChar at h3
      rcases Bool.and_eq_true_iff.mp h3 with ⟨h4, hkeep⟩
      rcases Bool.and_eq_true_iff.mp h4 with ⟨-, hup⟩
      refine ⟨by simpa using hup, hkeep, ?_⟩
      intro hws
      rw [hrepws c h2] at hws
      exact absurd hws (by simp)
  · exact noAdjWS_replaceFuel pat rep hrep hrepws l.length l hadj

/-- Folding the romanization table preserves the pipeline invariant. -/
theorem foldVariants_goodState : ∀ (tbl : List (List Nat × List Nat)) (l : List Nat),
    (∀ pr ∈ tbl, pr.2 ≠ [] ∧ ∀ c ∈ pr.2, goodRepChar c = true) → GoodState l →
    GoodState (tbl.foldl
      (fun acc pr => if containsSeq pr.1 acc then replaceList pr.1 pr.2 acc else acc) l) := by
  intro tbl
  induction tbl with
  | nil => intro l _ hl; exact hl
  | cons pr tbl ih =>
    intro l h hl
    simp only [List.foldl_cons]
    apply ih _ (fun q hq => h q (List.mem_cons_of_mem _ hq))
    by_cases hc : containsSeq pr.1 l = true
    · rw [if_pos hc]
      obtain ⟨hne, hgood⟩ := h pr (List.mem_cons_self _ _)
      exact replaceList_goodState pr.1 pr.2 hne hgood hl
    · rw [if_neg hc]
      exact hl

/-- Every replacement of the romanization table is non-empty and consists of
kept, whitespace-free, lowercase-safe characters. -/
theorem romanTable_rep_good :
    ∀ pr ∈ romanTable, pr.2 ≠ [] ∧ ∀ c ∈ pr.2, goodRepChar c = true := by
  decide

/-- Every normalized string satisfies the pipeline invariant. -/
theorem normalize_goodState (s : List Nat) : GoodState (normalize_name s) := by
  unfold normalize_name
  apply foldVariants_goodState _ _ romanTable_rep_good
  constructor
  · intro c hc
    rcases mem_collapseAux _ false c hc with ⟨hmem, hws⟩ | h32
    · have hkeep := (List.mem_filter.mp hmem).2
      have hmem2 := (List.mem_filter.mp hmem).1
      have hmem3 := mem_stripWS hmem2
      obtain ⟨a, _, rfl⟩ := List.mem_map.mp hmem3
      exact ⟨pyToLower_not_upper a, hkeep, fun h => absurd h (by simp [hws])⟩
    · rw [h32]
      exact ⟨by decide, by decide, fun _ => rfl⟩
  · exact collapseAux_noAdj _ false

/-- C2, counterexample: `normalize` is not idempotent — replacing a
romanization variant can create a fresh occurrence of an earlier variant:
normalizing `"ouu"` gives `"ou"` (the `ou → o` rewrite consumes the first
two letters and the remaining `u` re-forms `ou`), and normalizing again
gives `"o"`. -/
theorem claim2_counterexample :
    normalize_name (normalize_name (strCodes "ouu")) ≠ normalize_name (strCodes "ouu") := by
  decide

/-- C2 (amended): `normalize` is idempotent on every input whose normalized
form contains no romanization-variant key and no leading or trailing
whitespace; it is not idempotent in general, because a variant replacement
can recreate a variant key (e.g. `"ouu"`), and stripping punctuation after
the whitespace strip can leave an edge space (e.g. `"a ."`). -/
theorem claim2_idempotent_cond (s : List Nat)
    (h1 : noVariantKey (normalize_name s) = true)
    (h2 : noEdgeWS (normalize_name s) = true) :
    normalize_name (normalize_name s) = normalize_name s := by
  obtain ⟨hchar, hadj⟩ := normalize_goodState s
  show applyVariants (collapseWS (List.filter keepChar
    (stripWS ((normalize_name s).map pyToLower)))) = normalize_name s
  rw [map_pyToLower_id _ (fun c hc => (hchar c hc).1)]
  rw [stripWS_id _ h2]
  rw [List.filter_eq_self.mpr (fun c hc => (hchar c hc).2.1)]
  rw [collapseWS_id _ (fun c hc => (hchar c hc).2.2) hadj]
  exact applyVariants_id _ h1

/-- C2, witness: the conditional idempotence theorem applied to a name whose
normalized form is variant-free with no edge whitespace. -/
theorem claim2_witness :
    noVariantKey (normalize_name (strCodes "Tanaka Masahiro")) = true ∧
    noEdgeWS (normalize_name (strCodes "Tanaka Masahiro")) = true ∧
    normalize_name (normalize_name (strCodes "Tanaka Masahiro"))
      = normalize_name (strCodes "Tanaka Masahiro") :=
  ⟨by decide, by decide,
   claim2_idempotent_cond (strCodes "Tanaka Masahiro") (by decide) (by decide)⟩

end Claims
